import Mathlib

/-!
Shallow embedding of the Hybrid Retrieval Engine of the College_Rag
repository (src/rag/hybrid.py, src/rag/vector_store.py,
src/rag/keyword_search.py, src/rag/pipeline.py, src/app.py).

Scores are modelled as rationals (the Python code computes with floats;
all the properties verified here are exact-arithmetic properties of the
algorithms).  Python dicts with optional keys are modelled as structures
with `Option` fields: `none` means the key is absent, mirroring the
`dict.get` / `dict.setdefault` semantics that the fusion code relies on.
Insertion-ordered dicts keyed by `course_code` are modelled as
association lists to which new keys are appended.
-/

namespace CRag

/-- A course record / result dict.  `course_code`, `title` are always
present in corpus records; `department` / `source` may be absent
(`dict.get` with default `""` in the code); the four score fields are
absent until some stage of the pipeline attaches them. -/
structure SRec where
  course_code : String
  title : String
  department : Option String
  source : Option String
  similarity_score : Option ℚ
  keyword_score : Option ℚ
  rrf_score : Option ℚ
  final_score : Option ℚ
deriving DecidableEq, Repr

/-- `rec.get(key, d)` for a numeric field. -/
def getQ (o : Option ℚ) (d : ℚ) : ℚ := o.getD d

/-- `rec.setdefault(key, v)` for a numeric field: keeps an existing
value, otherwise stores `v`. -/
def setdefaultQ (o : Option ℚ) (v : ℚ) : Option ℚ :=
  match o with
  | none => some v
  | some x => some x

/-- Insertion-ordered dict keyed by course code (Python `dict`). -/
abbrev CDict := List (String × SRec)

/-- `code in combined`. -/
def containsKey (m : CDict) (c : String) : Bool :=
  m.any (fun p => p.1 = c)

/-- `combined.get(code)`. -/
def dlookup (m : CDict) (c : String) : Option SRec :=
  (m.find? (fun p => decide (p.1 = c))).map Prod.snd

/-- In-place update of the value stored at key `c` (keys are unique, so
at most one entry is touched; position is preserved, as for a Python
dict). -/
def dmodify (m : CDict) (c : String) (f : SRec → SRec) : CDict :=
  m.map (fun p => if p.1 = c then (p.1, f p.2) else p)

/-- `if code not in combined: combined[code] = v` — conditional insert
of a fresh key, appended at the end (dict insertion order). -/
def dictAdd (m : CDict) (c : String) (v : SRec) : CDict :=
  if containsKey m c then m else m ++ [(c, v)]

/-- The shape shared by all four fusion-loop bodies: conditionally
insert a fresh entry for `c`, then mutate the entry at `c`. -/
def dstep (m : CDict) (c : String) (v : SRec) (f : SRec → SRec) : CDict :=
  dmodify (dictAdd m c v) c f

/-- Python's stable `sorted(key=key, reverse=True)`: insert before the
first element whose key is `≤` the inserted element's key, so equal
keys keep their original relative order and the result is descending. -/
def insertDescBy {α : Type} (key : α → ℚ) (x : α) : List α → List α
  | [] => [x]
  | y :: ys => if key y ≤ key x then x :: y :: ys else y :: insertDescBy key x ys

/-- Stable descending sort by a rational key. -/
def sortDescBy {α : Type} (key : α → ℚ) : List α → List α
  | [] => []
  | x :: xs => insertDescBy key x (sortDescBy key xs)

/-! ### Fusion engine (src/rag/hybrid.py) -/

/-- Sort key of `_weighted_sum` / final-score ordering:
`r["final_score"]` (always present when it is used; modelled with
default `0`). -/
def finalKey (r : SRec) : ℚ := getQ r.final_score 0

/-- Sort key of `_reciprocal_rank_fusion`: `r.get("rrf_score", 0.0)`. -/
def rrfKey (r : SRec) : ℚ := getQ r.rrf_score 0

/-- One semantic-leg iteration of `_weighted_sum`:
```
if code not in combined:
    combined[code] = dict(rec)
    combined[code].setdefault("keyword_score", 0.0)
combined[code]["similarity_score"] = rec.get("similarity_score", 0.0)
``` -/
def wsSemStep (m : CDict) (rec : SRec) : CDict :=
  dstep m rec.course_code
    { rec with keyword_score := setdefaultQ rec.keyword_score 0 }
    (fun r => { r with similarity_score := some (getQ rec.similarity_score 0) })

/-- One keyword-leg iteration of `_weighted_sum`:
```
if code not in combined:
    combined[code] = dict(rec)
    combined[code].setdefault("similarity_score", 0.0)
combined[code]["keyword_score"] = rec.get("keyword_score", 0.0)
``` -/
def wsKwStep (m : CDict) (rec : SRec) : CDict :=
  dstep m rec.course_code
    { rec with similarity_score := setdefaultQ rec.similarity_score 0 }
    (fun r => { r with keyword_score := some (getQ rec.keyword_score 0) })

/-- The `combined` dict of `_weighted_sum` after both loops. -/
def wsCombined (sem kw : List SRec) : CDict :=
  kw.foldl wsKwStep (sem.foldl wsSemStep [])

/-- Third loop of `_weighted_sum`:
`rec["final_score"] = alpha * rec.get("similarity_score", 0.0) + beta * rec.get("keyword_score", 0.0)`. -/
def wsFinal (alpha beta : ℚ) (r : SRec) : SRec :=
  { r with final_score := some (alpha * getQ r.similarity_score 0 + beta * getQ r.keyword_score 0) }

/-- The scored, insertion-ordered value list of `_weighted_sum`, just
before the final `sorted(...)`. -/
def wsScored (sem kw : List SRec) (alpha beta : ℚ) : List SRec :=
  (wsCombined sem kw).map (fun p => wsFinal alpha beta p.2)

/-- `_weighted_sum(semantic_results, keyword_results, alpha, beta)`. -/
def weighted_sum (sem kw : List SRec) (alpha beta : ℚ) : List SRec :=
  sortDescBy finalKey (wsScored sem kw alpha beta)

/-- One semantic-leg iteration of `_reciprocal_rank_fusion`
(`rank` is the 1-based position in the leg):
```
if code not in combined:
    combined[code] = dict(rec)
    combined[code].setdefault("keyword_score", 0.0)
combined[code]["rrf_score"] = combined[code].get("rrf_score", 0.0) + 1.0 / (k + rank)
``` -/
def rrfSemStep (k : ℚ) (m : CDict) (rankRec : Nat × SRec) : CDict :=
  dstep m rankRec.2.course_code
    { rankRec.2 with keyword_score := setdefaultQ rankRec.2.keyword_score 0 }
    (fun r => { r with rrf_score := some (getQ r.rrf_score 0 + 1 / (k + (rankRec.1 : ℚ))) })

/-- One keyword-leg iteration of `_reciprocal_rank_fusion`:
```
if code not in combined:
    combined[code] = dict(rec)
    combined[code].setdefault("similarity_score", 0.0)
combined[code].setdefault("keyword_score", rec.get("keyword_score", 0.0))
combined[code]["rrf_score"] = combined[code].get("rrf_score", 0.0) + 1.0 / (k + rank)
``` -/
def rrfKwStep (k : ℚ) (m : CDict) (rankRec : Nat × SRec) : CDict :=
  dstep m rankRec.2.course_code
    { rankRec.2 with similarity_score := setdefaultQ rankRec.2.similarity_score 0 }
    (fun r =>
      let r1 := { r with keyword_score := setdefaultQ r.keyword_score (getQ rankRec.2.keyword_score 0) }
      { r1 with rrf_score := some (getQ r1.rrf_score 0 + 1 / (k + (rankRec.1 : ℚ))) })

/-- `enumerate(leg, start=1)`. -/
def enum1 (l : List SRec) : List (Nat × SRec) :=
  (List.enumFrom 1 l)

/-- The `combined` dict of `_reciprocal_rank_fusion` after both loops. -/
def rrfCombined (sem kw : List SRec) (k : ℚ) : CDict :=
  (enum1 kw).foldl (rrfKwStep k) ((enum1 sem).foldl (rrfSemStep k) [])

/-- Normalisation pass of `_reciprocal_rank_fusion`:
```
if results:
    max_rrf = results[0].get("rrf_score", 1.0)
    for r in results:
        r["final_score"] = r.pop("rrf_score", 0.0) / max_rrf if max_rrf else 0.0
```
(`pop` removes the key; Python `if max_rrf` tests the float against 0.) -/
def rrfFinalize (results : List SRec) : List SRec :=
  match results with
  | [] => []
  | r0 :: _ =>
    let maxRrf := getQ r0.rrf_score 1
    results.map (fun r =>
      { r with rrf_score := none,
               final_score := some (if maxRrf = 0 then 0 else getQ r.rrf_score 0 / maxRrf) })

/-- `_reciprocal_rank_fusion(semantic_results, keyword_results, k)`. -/
def reciprocal_rank_fusion (sem kw : List SRec) (k : ℚ) : List SRec :=
  rrfFinalize (sortDescBy rrfKey ((rrfCombined sem kw k).map Prod.snd))

/-! ### Vector store search (src/rag/vector_store.py, `search`) -/

/-- Python `.lower()`, character by character. -/
def pyLower (s : String) : String := ⟨s.data.map Char.toLower⟩

/-- Python `.upper()`, character by character. -/
def pyUpper (s : String) : String := ⟨s.data.map Char.toUpper⟩

/-- Python `needle in hay` substring test. -/
def strContains (hay needle : String) : Bool :=
  decide (needle.data <:+: hay.data)

/-- Python truthiness of an optional string (`if department:`):
true exactly for a present, non-empty string. -/
def truthy : Option String → Bool
  | none => false
  | some s => !s.isEmpty

/-- `department is truthy and department.lower() not in rec.get("department", "").lower()` —
the rejection test of the department filter (shared verbatim by the
vector store and the keyword searcher). -/
def deptRejects (department : Option String) (r : SRec) : Bool :=
  match department with
  | none => false
  | some d => !d.isEmpty && !strContains (pyLower (r.department.getD "")) (pyLower d)

/-- `source is truthy and rec.get("source", "").upper() != source.upper()` —
the rejection test of the source filter. -/
def srcRejects (source : Option String) (r : SRec) : Bool :=
  match source with
  | none => false
  | some s => !s.isEmpty && !(pyUpper (r.source.getD "") = pyUpper s)

/-- `np.clip(score, 0.0, 1.0)`. -/
def clip01 (x : ℚ) : ℚ := max 0 (min x 1)

/-- `if (department or source)`: a filter is active. -/
def filterActive (department source : Option String) : Bool :=
  truthy department || truthy source

/-- `fetch_k = top_k * 3 if (department or source) else top_k;
fetch_k = min(fetch_k, index.ntotal)`. -/
def fetchKOf (topK : Nat) (department source : Option String) (ntotal : Nat) : Nat :=
  min (if filterActive department source then topK * 3 else topK) ntotal

/-- Inner product of two dense vectors. -/
def dot (u v : List ℚ) : ℚ := (List.zipWith (fun a b => a * b) u v).sum

/-- Model of FAISS `IndexFlatIP.search`: exact inner product of the
query against every row, the `fetchK` best `(score, id)` pairs in
descending score order (ids are `Int` because FAISS uses `-1` as a
padding id). -/
def faissSearch (index : List (List ℚ)) (q : List ℚ) (fetchK : Nat) : List (ℚ × Int) :=
  (sortDescBy (fun p => p.1)
    ((index.map (dot q)).enum.map (fun p => (p.2, (p.1 : Int))))).take fetchK

/-- The candidate-pool accumulation loop of `search`:
```
for score, idx in zip(scores, ids):
    if idx == -1: continue
    rec = dict(metadata[idx])
    if department: ... continue
    if source: ... continue
    rec["similarity_score"] = float(np.clip(score, 0.0, 1.0))
    results.append(rec)
    if len(results) >= top_k: break
```
`count` is the number of results accumulated so far.  (On an id that is
outside the metadata list Python would raise `IndexError`; ids produced
by `faissSearch` are always in range when `metadata` parallels the
index, so the `none` branch is unreachable in every use below.) -/
def searchLoop (metadata : List SRec) (department source : Option String)
    (topK : Nat) (count : Nat) : List (ℚ × Int) → List SRec
  | [] => []
  | (score, idx) :: rest =>
    if idx = -1 then searchLoop metadata department source topK count rest
    else
      match metadata[idx.toNat]? with
      | none => []
      | some r =>
        if deptRejects department r then searchLoop metadata department source topK count rest
        else if srcRejects source r then searchLoop metadata department source topK count rest
        else
          let out := { r with similarity_score := some (clip01 score) }
          if topK ≤ count + 1 then [out]
          else out :: searchLoop metadata department source topK (count + 1) rest

/-- `search(index, metadata, query_vec, top_k, department, source)` of
src/rag/vector_store.py. -/
def vsSearch (index : List (List ℚ)) (metadata : List SRec) (queryVec : List ℚ)
    (topK : Nat) (department source : Option String) : List SRec :=
  searchLoop metadata department source topK 0
    (faissSearch index queryVec (fetchKOf topK department source index.length))

/-- The filtered candidate pool: what the accumulation loop would keep
if it never stopped (used to state that the loop returns the first
`topK` accepted candidates). -/
def acceptedOf (metadata : List SRec) (department source : Option String)
    (pairs : List (ℚ × Int)) : List SRec :=
  pairs.filterMap (fun p =>
    if p.2 = -1 then none
    else (metadata[p.2.toNat]?).bind (fun r =>
      if deptRejects department r then none
      else if srcRejects source r then none
      else some { r with similarity_score := some (clip01 p.1) }))

/-! ### Keyword searcher (src/rag/keyword_search.py) -/

/-- `numpy.ndarray.max` over the raw BM25 scores (the empty case never
arises with a non-empty corpus). -/
def listMax : List ℚ → ℚ
  | [] => 0
  | [x] => x
  | x :: y :: xs => max x (listMax (y :: xs))

/-- `max_score = float(raw_scores.max()) if raw_scores.max() > 0 else 1.0;
normed = raw_scores / max_score`. -/
def kwNormed (raw : List ℚ) : List ℚ :=
  let maxScore := if 0 < listMax raw then listMax raw else 1
  raw.map (fun x => x / maxScore)

/-- The result loop of `KeywordSearcher.search`:
```
for idx, score in scored:
    if score <= 0: break
    rec = dict(self._records[idx])
    if department: ... continue
    if source: ... continue
    rec["keyword_score"] = float(score)
    results.append(rec)
    if len(results) >= top_k: break
``` -/
def kwLoop (records : List SRec) (department source : Option String)
    (topK : Nat) (count : Nat) : List (Nat × ℚ) → List SRec
  | [] => []
  | (idx, score) :: rest =>
    if score ≤ 0 then []
    else
      match records[idx]? with
      | none => []
      | some r =>
        if deptRejects department r then kwLoop records department source topK count rest
        else if srcRejects source r then kwLoop records department source topK count rest
        else
          let out := { r with keyword_score := some score }
          if topK ≤ count + 1 then [out]
          else out :: kwLoop records department source topK (count + 1) rest

/-- `KeywordSearcher.search(query, top_k, department, source)`.
Tokenisation of the query and the BM25 raw scores
(`self._bm25.get_scores(tokens)`, one raw score per corpus record) are
taken as inputs: they are produced by the external `rank_bm25` library.
`scored = sorted(enumerate(normed), key=lambda x: x[1], reverse=True)`. -/
def kwSearch (records : List SRec) (tokens : List String) (rawScores : List ℚ)
    (topK : Nat) (department source : Option String) : List SRec :=
  if tokens.isEmpty then []
  else
    kwLoop records department source topK 0
      (sortDescBy (fun p => p.2) (kwNormed rawScores).enum)

/-! ### Hybrid search and vector-only search (src/rag/hybrid.py) -/

/-- Fusion strategy selector (`fusion == "rrf"` vs anything else). -/
inductive Fusion where
  | weighted : Fusion
  | rrf : Fusion
deriving DecidableEq, Repr

/-- The post-fusion loop of `hybrid_search`:
```
for r in merged:
    r.setdefault("similarity_score", 0.0)
    r.setdefault("keyword_score", 0.0)
    r.setdefault("final_score", 0.0)
``` -/
def ensureDefaults (r : SRec) : SRec :=
  { r with similarity_score := setdefaultQ r.similarity_score 0,
           keyword_score := setdefaultQ r.keyword_score 0,
           final_score := setdefaultQ r.final_score 0 }

/-- `hybrid_search(query, index, metadata, keyword_searcher, top_k,
department, source, fusion, alpha, beta, semantic_pool, keyword_pool)`.
The embedded query vector `queryVec` (`embed_query(query)`), the query
tokens and the BM25 raw scores stand in for the external embedding
model and `rank_bm25`. -/
def hybrid_search (index : List (List ℚ)) (metadata : List SRec)
    (queryVec : List ℚ) (kwTokens : List String) (kwRawScores : List ℚ)
    (topK : Nat) (department source : Option String)
    (fusion : Fusion) (alpha beta : ℚ) (semanticPool keywordPool : Nat) : List SRec :=
  let semResults := vsSearch index metadata queryVec semanticPool department source
  let kwResults := kwSearch metadata kwTokens kwRawScores keywordPool department source
  let merged := match fusion with
    | .rrf => reciprocal_rank_fusion semResults kwResults 60
    | .weighted => weighted_sum semResults kwResults alpha beta
  (merged.map ensureDefaults).take topK

/-- `vector_search(query, index, metadata, top_k, department, source)`:
pure vector search; `keyword_score` defaulted to 0 and
`final_score = r.get("similarity_score", 0.0)`. -/
def vector_search (index : List (List ℚ)) (metadata : List SRec)
    (queryVec : List ℚ) (topK : Nat) (department source : Option String) : List SRec :=
  (vsSearch index metadata queryVec topK department source).map (fun r =>
    let r1 := { r with keyword_score := setdefaultQ r.keyword_score 0 }
    { r1 with final_score := some (getQ r1.similarity_score 0) })

/-! ### Persistence, staleness and rebuild (src/rag/vector_store.py) -/

/-- Contents of a file on disk: either bytes that deserialise to a
value, or bytes the deserialiser rejects. -/
inductive FileData (α : Type) where
  | good : α → FileData α
  | corrupt : FileData α
deriving DecidableEq, Repr

/-- A file on disk: contents plus a last-modified timestamp. -/
structure DiskFile (α : Type) where
  data : FileData α
  mtime : Nat
deriving DecidableEq, Repr

/-- The three paths the vector store touches: `data/courses.json`,
`data/faiss.index` and `data/metadata.pkl` (`none` = the file does not
exist). -/
structure FS where
  courses : Option (DiskFile (List SRec))
  faissFile : Option (DiskFile (List (List ℚ)))
  metaFile : Option (DiskFile (List SRec))
deriving DecidableEq, Repr

/-- The exceptions the persistence layer can produce.  The code defines
only `FAISSIndexMissingError`; everything else escapes as the raising
library's own exception type (there is no `CorruptIndexError` class
anywhere in the repository, hence no such constructor here). -/
inductive PyExc where
  | faissIndexMissing : String → PyExc
  | faissReadError : PyExc
  | unpicklingError : PyExc
  | jsonDecodeError : PyExc
  | fileNotFound : String → PyExc
  | embeddingError : PyExc
  | diskWriteError : PyExc
deriving DecidableEq, Repr

/-- `load_index()`: existence of both files is checked first (FAISS
file, then metadata file), then each is deserialised.  No further
validation is performed on the loaded pair. -/
def load_index (fs : FS) : Except PyExc (List (List ℚ) × List SRec) :=
  match fs.faissFile with
  | none => .error (.faissIndexMissing "FAISS index not found")
  | some ff =>
    match fs.metaFile with
    | none => .error (.faissIndexMissing "Metadata file not found")
    | some mf =>
      match ff.data with
      | .corrupt => .error .faissReadError
      | .good index =>
        match mf.data with
        | .corrupt => .error .unpicklingError
        | .good metadata => .ok (index, metadata)

/-- `index_is_stale()`:
```
if not FAISS_PATH.exists() or not META_PATH.exists(): return True
courses_mtime = os.path.getmtime(COURSES_PATH)
index_mtime = min(os.path.getmtime(FAISS_PATH), os.path.getmtime(META_PATH))
return courses_mtime > index_mtime
```
(`os.path.getmtime` raises `FileNotFoundError` when `courses.json` is
absent, hence the `Except`.) -/
def index_is_stale (fs : FS) : Except PyExc Bool :=
  match fs.faissFile, fs.metaFile with
  | some ff, some mf =>
    match fs.courses with
    | none => .error (.fileNotFound "courses.json")
    | some cf => .ok (decide (min ff.mtime mf.mtime < cf.mtime))
  | _, _ => .ok true

/-- Fault-injection point for one rebuild attempt.  `buildOk`: the
whole attempt succeeds.  `embedFail`: the embedding gateway fails
inside `build_index` (before any write).  `indexWriteFail`:
`faiss.write_index` fails partway, leaving the in-place-overwritten
index file corrupt.  `metaWriteFail`: `pickle.dump` fails after the
index file was written. -/
inductive FailPoint where
  | buildOk : FailPoint
  | embedFail : FailPoint
  | indexWriteFail : FailPoint
  | metaWriteFail : FailPoint
deriving DecidableEq, Repr

/-- `save_index(index, metadata)` when every write succeeds: both files
are written directly at their final paths (no temporary file, no
rename), so the previous contents are overwritten in place. -/
def save_index (fs : FS) (index : List (List ℚ)) (metadata : List SRec) (now : Nat) : FS :=
  { fs with faissFile := some ⟨.good index, now⟩, metaFile := some ⟨.good metadata, now⟩ }

/-- The rebuild-and-persist tail of `load_or_build` (corpus already
read as `records`), under fault injection.  Returns the result of the
call and the filesystem afterwards. -/
def rebuildTail (fs : FS) (records : List SRec) (embedOf : List SRec → List (List ℚ))
    (now : Nat) (fail : FailPoint) : Except PyExc (List (List ℚ) × List SRec) × FS :=
  match fail with
  | .embedFail => (.error .embeddingError, fs)
  | .indexWriteFail =>
    (.error .diskWriteError, { fs with faissFile := some ⟨.corrupt, now⟩ })
  | .metaWriteFail =>
    (.error .diskWriteError,
     { fs with faissFile := some ⟨.good (embedOf records), now⟩,
               metaFile := some ⟨.corrupt, now⟩ })
  | .buildOk =>
    (.ok (embedOf records, records), save_index fs (embedOf records) records now)

/-- The rebuild branch of `load_or_build`:
```
if not COURSES_PATH.exists(): raise FileNotFoundError(...)
records = json.load(open(COURSES_PATH))
index, meta = build_index(records); save_index(index, meta)
return index, meta
``` -/
def rebuildPath (fs : FS) (embedOf : List SRec → List (List ℚ)) (now : Nat)
    (fail : FailPoint) : Except PyExc (List (List ℚ) × List SRec) × FS :=
  match fs.courses with
  | none => (.error (.fileNotFound "Course data not found"), fs)
  | some cf =>
    match cf.data with
    | .corrupt => (.error .jsonDecodeError, fs)
    | .good records => rebuildTail fs records embedOf now fail

/-- `load_or_build(model_name, force_rebuild)` under fault injection:
```
if not force_rebuild and FAISS_PATH.exists() and not index_is_stale():
    return load_index()
```
followed by the rebuild branch. -/
def load_or_build (fs : FS) (embedOf : List SRec → List (List ℚ)) (now : Nat)
    (forceRebuild : Bool) (fail : FailPoint) : Except PyExc (List (List ℚ) × List SRec) × FS :=
  if !forceRebuild && fs.faissFile.isSome then
    match index_is_stale fs with
    | .error e => (.error e, fs)
    | .ok false => (load_index fs, fs)
    | .ok true => rebuildPath fs embedOf now fail
  else rebuildPath fs embedOf now fail

/-! ### Orchestrator and HTTP boundary (src/rag/pipeline.py, src/app.py) -/

/-- The dict returned by `RAGPipeline.query`
(`{"question", "answer", "context", "records"}`). -/
structure QueryOut where
  question : String
  answer : String
  context : String
  records : List SRec
deriving DecidableEq, Repr

/-- Retrieval mode (`mode == "vector"` vs anything else). -/
inductive Mode where
  | hybrid : Mode
  | vector : Mode
deriving DecidableEq, Repr

/-- `RAGPipeline.query(question, top_k, department, source, mode,
fusion, alpha, beta, generate)`.  The method contains no validation of
`question` and no `raise` of its own: it embeds the question, runs
vector or hybrid retrieval, optionally asks the generation collaborator
(`generateAnswer`, external) for an answer, and returns the result
dict.  The `Except` return type records that it never fails by itself. -/
def ragQuery (index : List (List ℚ)) (metadata : List SRec)
    (embedOf : String → List ℚ) (tokensOf : String → List String)
    (bm25Of : List String → List ℚ)
    (generateAnswer : String → List SRec → String × String)
    (question : String) (topK : Nat) (department source : Option String)
    (mode : Mode) (fusion : Fusion) (alpha beta : ℚ) (generate : Bool) :
    Except PyExc QueryOut :=
  let records := match mode with
    | .vector =>
      vector_search index metadata (embedOf question) topK department source
    | .hybrid =>
      hybrid_search index metadata (embedOf question) (tokensOf question)
        (bm25Of (tokensOf question)) topK department source fusion alpha beta 50 50
  let ac : String × String :=
    if generate && !records.isEmpty then generateAnswer question records
    else ("", "")
  .ok { question := question, answer := ac.1, context := ac.2, records := records }

/-- Python `str.strip()`: drop leading and trailing whitespace. -/
def pyStrip (s : String) : String :=
  ⟨((s.data.dropWhile Char.isWhitespace).reverse.dropWhile Char.isWhitespace).reverse⟩

/-- Outcome of the `/query` endpoint: an HTTP error status with detail,
or a successful pipeline result. -/
inductive HttpOut where
  | httpError : Nat → String → HttpOut
  | ok : QueryOut → HttpOut
deriving DecidableEq, Repr

/-- `post_query(body)` of src/app.py:
```
if not body.q or not body.q.strip():
    raise HTTPException(status_code=400, detail="q field is required")
if _rag is None:
    raise HTTPException(status_code=503, detail=...)
result = _rag.query(body.q.strip(), ...)
```
`rag` is `none` when the pipeline failed to load at startup. -/
def post_query (rag : Option (String → Except PyExc QueryOut)) (q : Option String) : HttpOut :=
  match q with
  | none => .httpError 400 "q field is required"
  | some s =>
    if (pyStrip s).isEmpty then .httpError 400 "q field is required"
    else
      match rag with
      | none => .httpError 503 "Index not loaded"
      | some run =>
        match run (pyStrip s) with
        | .ok out => .ok out
        | .error _ => .httpError 500 "internal"

/-! ### Auxiliary predicates and concrete test data -/

/-- Inserted value of the `_weighted_sum` semantic loop. -/
def wsSemV (rec : SRec) : SRec :=
  { rec with keyword_score := setdefaultQ rec.keyword_score 0 }

/-- Mutation of the `_weighted_sum` semantic loop. -/
def wsSemF (rec : SRec) (r : SRec) : SRec :=
  { r with similarity_score := some (getQ rec.similarity_score 0) }

/-- Inserted value of the `_weighted_sum` keyword loop. -/
def wsKwV (rec : SRec) : SRec :=
  { rec with similarity_score := setdefaultQ rec.similarity_score 0 }

/-- Mutation of the `_weighted_sum` keyword loop. -/
def wsKwF (rec : SRec) (r : SRec) : SRec :=
  { r with keyword_score := some (getQ rec.keyword_score 0) }

/-- Inserted value of the RRF semantic loop. -/
def rrfSemV (b : Nat × SRec) : SRec :=
  { b.2 with keyword_score := setdefaultQ b.2.keyword_score 0 }

/-- Mutation of the RRF semantic loop. -/
def rrfSemF (k : ℚ) (b : Nat × SRec) (r : SRec) : SRec :=
  { r with rrf_score := some (getQ r.rrf_score 0 + 1 / (k + (b.1 : ℚ))) }

/-- Inserted value of the RRF keyword loop. -/
def rrfKwV (b : Nat × SRec) : SRec :=
  { b.2 with similarity_score := setdefaultQ b.2.similarity_score 0 }

/-- Mutation of the RRF keyword loop. -/
def rrfKwF (k : ℚ) (b : Nat × SRec) (r : SRec) : SRec :=
  let r1 := { r with keyword_score := setdefaultQ r.keyword_score (getQ b.2.keyword_score 0) }
  { r1 with rrf_score := some (getQ r1.rrf_score 0 + 1 / (k + (b.1 : ℚ))) }

/-- The key list of a modelled dict. -/
def keys (m : CDict) : List String := m.map Prod.fst

/-- A plain corpus record: none of the four score keys is present.
Every record of `data/courses.json` (the ETL output) is of this shape. -/
def Plain (r : SRec) : Prop :=
  r.similarity_score = none ∧ r.keyword_score = none ∧
    r.rrf_score = none ∧ r.final_score = none

/-- The similarity and keyword scores carried by a result (absent keys
reading as 0) lie in `[0, 1]`. -/
def BndSK (r : SRec) : Prop :=
  0 ≤ getQ r.similarity_score 0 ∧ getQ r.similarity_score 0 ≤ 1 ∧
    0 ≤ getQ r.keyword_score 0 ∧ getQ r.keyword_score 0 ≤ 1

/-- Concrete course record used by witnesses and counterexamples. -/
def recA : SRec :=
  ⟨"CSCI0150", "Intro to Object-Oriented Programming",
   some "Computer Science", some "CAB", none, none, none, none⟩

/-- Second concrete course record. -/
def recB : SRec :=
  ⟨"CSCI0320", "Introduction to Software Engineering",
   some "Computer Science", some "BULLETIN", none, none, none, none⟩

/-- A record lacking both filterable fields. -/
def recNoFields : SRec :=
  ⟨"ENGL0100", "Critical Reading and Writing", none, none, none, none, none, none⟩

/-- `recA` as a semantic-leg result (similarity attached). -/
def semLegA : SRec := { recA with similarity_score := some (1/2) }

/-- `recA` as a keyword-leg result (keyword score attached). -/
def kwLegA : SRec := { recA with keyword_score := some (4/5) }

/-- A filesystem holding a valid persisted snapshot that is stale
(courses.json touched at time 10, snapshot written at time 5). -/
def fs0 : FS :=
  ⟨some ⟨.good [recA], 10⟩, some ⟨.good [[1]], 5⟩, some ⟨.good [recA], 5⟩⟩

/-- A filesystem whose persisted artifacts disagree in size: the index
holds two rows, the metadata list one record. -/
def fsMismatch : FS :=
  ⟨none, some ⟨.good [[1], [1]], 5⟩, some ⟨.good [recA], 5⟩⟩

/-! ## Lemmas about the stable descending sort -/

theorem insertDescBy_perm {α : Type} (key : α → ℚ) (x : α) (l : List α) :
    List.Perm (insertDescBy key x l) (x :: l) := by
  induction l with
  | nil => exact List.Perm.refl _
  | cons y ys ih =>
    simp only [insertDescBy]
    split
    · exact List.Perm.refl _
    · exact (ih.cons y).trans (List.Perm.swap x y ys)

theorem sortDescBy_perm {α : Type} (key : α → ℚ) (l : List α) :
    List.Perm (sortDescBy key l) l := by
  induction l with
  | nil => exact List.Perm.refl _
  | cons x xs ih => exact (insertDescBy_perm key x _).trans (ih.cons x)

theorem mem_insertDescBy {α : Type} (key : α → ℚ) (x : α) (l : List α) (a : α) :
    a ∈ insertDescBy key x l ↔ a = x ∨ a ∈ l := by
  rw [(insertDescBy_perm key x l).mem_iff]
  simp

theorem mem_sortDescBy {α : Type} (key : α → ℚ) (l : List α) (a : α) :
    a ∈ sortDescBy key l ↔ a ∈ l :=
  (sortDescBy_perm key l).mem_iff

theorem insertDescBy_pairwise {α : Type} (key : α → ℚ) (x : α) (l : List α)
    (h : l.Pairwise (fun a b => key b ≤ key a)) :
    (insertDescBy key x l).Pairwise (fun a b => key b ≤ key a) := by
  induction l with
  | nil => simp [insertDescBy]
  | cons y ys ih =>
    rw [List.pairwise_cons] at h
    simp only [insertDescBy]
    split
    · rename_i hle
      refine List.pairwise_cons.mpr ⟨?_, List.pairwise_cons.mpr h⟩
      intro z hz
      rcases List.mem_cons.mp hz with hz | hz
      · exact hz ▸ hle
      · exact le_trans (h.1 z hz) hle
    · rename_i hnle
      refine List.pairwise_cons.mpr ⟨?_, ih h.2⟩
      intro z hz
      rcases (mem_insertDescBy key x ys z).mp hz with hz | hz
      · exact hz ▸ le_of_lt (lt_of_not_le hnle)
      · exact h.1 z hz

theorem sortDescBy_pairwise {α : Type} (key : α → ℚ) (l : List α) :
    (sortDescBy key l).Pairwise (fun a b => key b ≤ key a) := by
  induction l with
  | nil => simp [sortDescBy]
  | cons x xs ih => exact insertDescBy_pairwise key x _ ih

theorem filter_insertDescBy_of_ne {α : Type} (key : α → ℚ) (q : ℚ) (x : α) (l : List α)
    (h : key x ≠ q) :
    (insertDescBy key x l).filter (fun a => key a == q) =
      l.filter (fun a => key a == q) := by
  induction l with
  | nil => simp [insertDescBy, h]
  | cons y ys ih =>
    simp only [insertDescBy]
    split
    · simp [List.filter_cons, h]
    · by_cases hy : key y = q
      · simp [List.filter_cons, hy, ih]
      · simp [List.filter_cons, hy, ih]

theorem filter_insertDescBy_of_eq {α : Type} (key : α → ℚ) (q : ℚ) (x : α) (l : List α)
    (h : key x = q) :
    (insertDescBy key x l).filter (fun a => key a == q) =
      x :: l.filter (fun a => key a == q) := by
  induction l with
  | nil => simp [insertDescBy, h]
  | cons y ys ih =>
    simp only [insertDescBy]
    split
    · simp [List.filter_cons, h]
    · rename_i hnle
      have hy : key y ≠ q := by
        intro hyq
        exact hnle (by rw [hyq, h])
      simp [List.filter_cons, hy, ih]

theorem filter_sortDescBy {α : Type} (key : α → ℚ) (q : ℚ) (l : List α) :
    (sortDescBy key l).filter (fun a => key a == q) =
      l.filter (fun a => key a == q) := by
  induction l with
  | nil => rfl
  | cons x xs ih =>
    by_cases hx : key x = q
    · rw [sortDescBy, filter_insertDescBy_of_eq key q x _ hx, ih]
      simp [List.filter_cons, hx]
    · rw [sortDescBy, filter_insertDescBy_of_ne key q x _ hx, ih]
      simp [List.filter_cons, hx]

theorem length_sortDescBy {α : Type} (key : α → ℚ) (l : List α) :
    (sortDescBy key l).length = l.length :=
  (sortDescBy_perm key l).length_eq

/-! ## Lemmas about the insertion-ordered dict -/

theorem setdefaultQ_eq_some (o : Option ℚ) (d : ℚ) :
    setdefaultQ o d = some (getQ o d) := by
  cases o <;> rfl

theorem getQ_setdefaultQ (o : Option ℚ) (d : ℚ) :
    getQ (setdefaultQ o d) d = getQ o d := by
  cases o <;> rfl

theorem dlookup_cons (p : String × SRec) (m : CDict) (c : String) :
    dlookup (p :: m) c = if p.1 = c then some p.2 else dlookup m c := by
  by_cases h : p.1 = c <;> simp [dlookup, List.find?, h]

theorem containsKey_eq_isSome (m : CDict) (c : String) :
    containsKey m c = (dlookup m c).isSome := by
  induction m with
  | nil => rfl
  | cons p m ih =>
    by_cases h : p.1 = c <;> simp [containsKey, List.any_cons, dlookup_cons, h] <;>
      simpa [containsKey] using ih

theorem containsKey_false_notmem (m : CDict) (c : String)
    (h : containsKey m c = false) : ∀ p ∈ m, p.1 ≠ c := by
  intro p hp
  simp only [containsKey, List.any_eq_false, decide_eq_true_eq] at h
  exact h p hp

theorem dlookup_append_sing (m : CDict) (c : String) (v : SRec)
    (h : containsKey m c = false) :
    dlookup (m ++ [(c, v)]) c = some v := by
  induction m with
  | nil => simp [dlookup_cons]
  | cons p m ih =>
    have hp : p.1 ≠ c := containsKey_false_notmem _ _ h p (by simp)
    have hm : containsKey m c = false := by
      simp only [containsKey, List.any_eq_false, decide_eq_true_eq] at h ⊢
      intro q hq
      exact h q (by simp [hq])
    simp [List.cons_append, dlookup_cons, hp, ih hm]

theorem dlookup_append_sing_other (m : CDict) (c c' : String) (v : SRec)
    (h : c' ≠ c) :
    dlookup (m ++ [(c, v)]) c' = dlookup m c' := by
  induction m with
  | nil =>
    have hcc : c ≠ c' := fun hc => h hc.symm
    simp [dlookup, List.find?, hcc]
  | cons p m ih =>
    by_cases hp : p.1 = c' <;> simp [List.cons_append, dlookup_cons, hp, ih]

theorem dlookup_dmodify_self (m : CDict) (c : String) (f : SRec → SRec) :
    dlookup (dmodify m c f) c = (dlookup m c).map f := by
  induction m with
  | nil => rfl
  | cons p m ih =>
    simp only [dmodify, List.map_cons] at ih ⊢
    rw [dlookup_cons, dlookup_cons]
    by_cases hp : p.1 = c <;> simp [hp, ih]

theorem dlookup_dmodify_other (m : CDict) (c c' : String) (f : SRec → SRec)
    (h : c' ≠ c) :
    dlookup (dmodify m c f) c' = dlookup m c' := by
  induction m with
  | nil => rfl
  | cons p m ih =>
    simp only [dmodify, List.map_cons] at ih ⊢
    rw [dlookup_cons, dlookup_cons]
    by_cases hp : p.1 = c
    · have hp' : p.1 ≠ c' := by rw [hp]; exact fun hc => h hc.symm
      simp [hp, hp', Ne.symm h, ih]
    · by_cases hp' : p.1 = c' <;> simp [hp, hp', h, ih]

theorem dlookup_dstep_self (m : CDict) (c : String) (v : SRec) (f : SRec → SRec) :
    dlookup (dstep m c v f) c = some (f ((dlookup m c).getD v)) := by
  unfold dstep dictAdd
  by_cases h : containsKey m c
  · have hs : (dlookup m c).isSome := by rw [← containsKey_eq_isSome]; exact h
    obtain ⟨w, hw⟩ := Option.isSome_iff_exists.mp hs
    simp [h, dlookup_dmodify_self, hw]
  · have hfalse : containsKey m c = false := by simpa using h
    have hnone : dlookup m c = none := by
      cases ho : dlookup m c with
      | none => rfl
      | some w =>
        have h2 := containsKey_eq_isSome m c
        rw [hfalse, ho] at h2
        simp at h2
    simp [hfalse, dlookup_dmodify_self, dlookup_append_sing m c v hfalse, hnone]

theorem dlookup_dstep_other (m : CDict) (c c' : String) (v : SRec) (f : SRec → SRec)
    (h : c' ≠ c) :
    dlookup (dstep m c v f) c' = dlookup m c' := by
  unfold dstep dictAdd
  by_cases hc : containsKey m c
  · simp [hc, dlookup_dmodify_other _ _ _ _ h]
  · have hfalse : containsKey m c = false := by simpa using hc
    simp [hfalse, dlookup_dmodify_other _ _ _ _ h,
      dlookup_append_sing_other m c c' v h]

theorem keys_dmodify (m : CDict) (c : String) (f : SRec → SRec) :
    keys (dmodify m c f) = keys m := by
  induction m with
  | nil => rfl
  | cons p m ih =>
    by_cases hp : p.1 = c <;> simp [keys, dmodify, hp] <;> simpa [keys, dmodify] using ih

theorem keys_dstep (m : CDict) (c : String) (v : SRec) (f : SRec → SRec) :
    keys (dstep m c v f) =
      if containsKey m c then keys m else keys m ++ [c] := by
  unfold dstep
  by_cases h : containsKey m c = true
  · rw [keys_dmodify]
    simp [dictAdd, h]
  · rw [keys_dmodify]
    simp only [dictAdd, if_neg h]
    simp [keys]

theorem containsKey_iff_mem_keys (m : CDict) (c : String) :
    containsKey m c = true ↔ c ∈ keys m := by
  simp [containsKey, List.any_eq_true, keys, List.mem_map]

theorem keysNodup_dstep (m : CDict) (c : String) (v : SRec) (f : SRec → SRec)
    (h : (keys m).Nodup) : (keys (dstep m c v f)).Nodup := by
  rw [keys_dstep]
  by_cases hc : containsKey m c
  · simpa [hc] using h
  · have : c ∉ keys m := fun hmem =>
      by simp [(containsKey_iff_mem_keys m c).mpr hmem] at hc
    simp [hc, List.nodup_append, h, this]

theorem mem_keys_dstep (m : CDict) (c c' : String) (v : SRec) (f : SRec → SRec) :
    c' ∈ keys (dstep m c v f) ↔ c' ∈ keys m ∨ c' = c := by
  rw [keys_dstep]
  by_cases hc : containsKey m c
  · simp only [hc, if_true]
    constructor
    · exact Or.inl
    · rintro (h | rfl)
      · exact h
      · exact (containsKey_iff_mem_keys m c').mp hc
  · simp [hc]

theorem vals_dstep (m : CDict) (c : String) (v : SRec) (f : SRec → SRec)
    (P : SRec → Prop) (hm : ∀ p ∈ m, P p.2) (hv : P (f v))
    (hf : ∀ w, P w → P (f w)) : ∀ p ∈ dstep m c v f, P p.2 := by
  intro p hp
  unfold dstep dictAdd at hp
  by_cases hc : containsKey m c = true
  · rw [if_pos hc] at hp
    simp only [dmodify, List.mem_map] at hp
    obtain ⟨q, hq, rfl⟩ := hp
    by_cases hq1 : q.1 = c
    · simpa [hq1] using hf _ (hm q hq)
    · simpa [hq1] using hm q hq
  · rw [if_neg hc] at hp
    simp only [dmodify, List.map_append, List.mem_append, List.mem_map] at hp
    rcases hp with ⟨q, hq, rfl⟩ | hp
    · by_cases hq1 : q.1 = c
      · simpa [hq1] using hf _ (hm q hq)
      · simpa [hq1] using hm q hq
    · simp only [List.map_cons, List.map_nil, List.mem_singleton] at hp
      obtain ⟨a, rfl, rfl⟩ := hp
      simpa using hv

theorem codes_dstep (m : CDict) (c : String) (v : SRec) (f : SRec → SRec)
    (hm : ∀ p ∈ m, p.2.course_code = p.1) (hv : v.course_code = c)
    (hf : ∀ w, (f w).course_code = w.course_code) :
    ∀ p ∈ dstep m c v f, p.2.course_code = p.1 := by
  intro p hp
  unfold dstep dictAdd at hp
  by_cases hc : containsKey m c = true
  · rw [if_pos hc] at hp
    simp only [dmodify, List.mem_map] at hp
    obtain ⟨q, hq, rfl⟩ := hp
    by_cases hq1 : q.1 = c
    · simp [hq1, hf, hm q hq]
    · simp [hq1, hm q hq]
  · rw [if_neg hc] at hp
    simp only [dmodify, List.map_append, List.mem_map, List.mem_append] at hp
    rcases hp with ⟨q, hq, rfl⟩ | hp
    · by_cases hq1 : q.1 = c
      · simp [hq1, hf, hm q hq]
      · simp [hq1, hm q hq]
    · simp only [List.map_cons, List.map_nil, List.mem_singleton] at hp
      obtain ⟨a, rfl, rfl⟩ := hp
      simp [hf, hv]

theorem length_dstep_pos (m : CDict) (c : String) (v : SRec) (f : SRec → SRec) :
    1 ≤ (dstep m c v f).length := by
  unfold dstep dictAdd
  by_cases hc : containsKey m c
  · cases m with
    | nil => simp [containsKey] at hc
    | cons p m => simp [hc, dmodify]
  · simp [hc, dmodify]

theorem length_le_dstep (m : CDict) (c : String) (v : SRec) (f : SRec → SRec) :
    m.length ≤ (dstep m c v f).length := by
  unfold dstep dictAdd
  by_cases hc : containsKey m c <;> simp [hc, dmodify]

/-! ## Lemmas about folds of `dstep`-shaped loop bodies

All four fusion loops are folds of a step of the form
`fun m b => dstep m (cOf b) (vOf b) (fOf b)`; the lemmas below are
stated generically in `cOf`, `vOf`, `fOf`. -/

theorem dlookup_foldl_of_ne {β : Type} (step : CDict → β → CDict)
    (cOf : β → String) (vOf : β → SRec) (fOf : β → SRec → SRec)
    (hstep : ∀ m b, step m b = dstep m (cOf b) (vOf b) (fOf b))
    (l : List β) (m : CDict) (c : String) (hc : ∀ b ∈ l, cOf b ≠ c) :
    dlookup (l.foldl step m) c = dlookup m c := by
  induction l generalizing m with
  | nil => rfl
  | cons b l ih =>
    rw [List.foldl_cons, hstep]
    rw [ih _ (fun x hx => hc x (List.mem_cons_of_mem _ hx))]
    exact dlookup_dstep_other _ _ _ _ _ (Ne.symm (hc b (List.mem_cons_self _ _)))

theorem dlookup_foldl_single {β : Type} (step : CDict → β → CDict)
    (cOf : β → String) (vOf : β → SRec) (fOf : β → SRec → SRec)
    (hstep : ∀ m b, step m b = dstep m (cOf b) (vOf b) (fOf b))
    (l₁ l₂ : List β) (b : β) (m : CDict)
    (h1 : ∀ x ∈ l₁, cOf x ≠ cOf b) (h2 : ∀ x ∈ l₂, cOf x ≠ cOf b) :
    dlookup ((l₁ ++ b :: l₂).foldl step m) (cOf b) =
      some (fOf b ((dlookup m (cOf b)).getD (vOf b))) := by
  rw [List.foldl_append, List.foldl_cons]
  rw [dlookup_foldl_of_ne step cOf vOf fOf hstep l₂ _ _ h2]
  rw [hstep, dlookup_dstep_self]
  rw [dlookup_foldl_of_ne step cOf vOf fOf hstep l₁ m _ h1]

theorem vals_foldl {β : Type} (step : CDict → β → CDict)
    (cOf : β → String) (vOf : β → SRec) (fOf : β → SRec → SRec)
    (hstep : ∀ m b, step m b = dstep m (cOf b) (vOf b) (fOf b))
    (l : List β) (m : CDict) (P : SRec → Prop) (hm : ∀ p ∈ m, P p.2)
    (hv : ∀ b ∈ l, P (fOf b (vOf b)))
    (hf : ∀ b ∈ l, ∀ w, P w → P (fOf b w)) :
    ∀ p ∈ l.foldl step m, P p.2 := by
  induction l generalizing m with
  | nil => exact hm
  | cons b l ih =>
    rw [List.foldl_cons, hstep]
    exact ih _
      (vals_dstep _ _ _ _ P hm (hv b (List.mem_cons_self _ _))
        (hf b (List.mem_cons_self _ _)))
      (fun x hx => hv x (List.mem_cons_of_mem _ hx))
      (fun x hx => hf x (List.mem_cons_of_mem _ hx))

theorem codes_foldl {β : Type} (step : CDict → β → CDict)
    (cOf : β → String) (vOf : β → SRec) (fOf : β → SRec → SRec)
    (hstep : ∀ m b, step m b = dstep m (cOf b) (vOf b) (fOf b))
    (l : List β) (m : CDict) (hm : ∀ p ∈ m, p.2.course_code = p.1)
    (hv : ∀ b ∈ l, (vOf b).course_code = cOf b)
    (hf : ∀ b ∈ l, ∀ w, (fOf b w).course_code = w.course_code) :
    ∀ p ∈ l.foldl step m, p.2.course_code = p.1 := by
  induction l generalizing m with
  | nil => exact hm
  | cons b l ih =>
    rw [List.foldl_cons, hstep]
    exact ih _
      (codes_dstep _ _ _ _ hm (hv b (List.mem_cons_self _ _))
        (hf b (List.mem_cons_self _ _)))
      (fun x hx => hv x (List.mem_cons_of_mem _ hx))
      (fun x hx => hf x (List.mem_cons_of_mem _ hx))

theorem keysNodup_foldl {β : Type} (step : CDict → β → CDict)
    (cOf : β → String) (vOf : β → SRec) (fOf : β → SRec → SRec)
    (hstep : ∀ m b, step m b = dstep m (cOf b) (vOf b) (fOf b))
    (l : List β) (m : CDict) (hm : (keys m).Nodup) :
    (keys (l.foldl step m)).Nodup := by
  induction l generalizing m with
  | nil => exact hm
  | cons b l ih =>
    rw [List.foldl_cons, hstep]
    exact ih _ (keysNodup_dstep _ _ _ _ hm)

theorem mem_keys_foldl {β : Type} (step : CDict → β → CDict)
    (cOf : β → String) (vOf : β → SRec) (fOf : β → SRec → SRec)
    (hstep : ∀ m b, step m b = dstep m (cOf b) (vOf b) (fOf b))
    (l : List β) (m : CDict) (c : String) :
    c ∈ keys (l.foldl step m) ↔ c ∈ keys m ∨ c ∈ l.map cOf := by
  induction l generalizing m with
  | nil => simp
  | cons b l ih =>
    rw [List.foldl_cons, hstep, ih]
    rw [mem_keys_dstep]
    simp only [List.map_cons, List.mem_cons]
    tauto

theorem length_le_foldl {β : Type} (step : CDict → β → CDict)
    (cOf : β → String) (vOf : β → SRec) (fOf : β → SRec → SRec)
    (hstep : ∀ m b, step m b = dstep m (cOf b) (vOf b) (fOf b))
    (l : List β) (m : CDict) :
    m.length ≤ (l.foldl step m).length := by
  induction l generalizing m with
  | nil => exact le_refl _
  | cons b l ih =>
    rw [List.foldl_cons, hstep]
    exact le_trans (length_le_dstep _ _ _ _) (ih _)

theorem length_foldl_pos {β : Type} (step : CDict → β → CDict)
    (cOf : β → String) (vOf : β → SRec) (fOf : β → SRec → SRec)
    (hstep : ∀ m b, step m b = dstep m (cOf b) (vOf b) (fOf b))
    (l : List β) (b : β) (m : CDict) (hb : b ∈ l) :
    1 ≤ (l.foldl step m).length := by
  obtain ⟨l₁, l₂, rfl⟩ := List.append_of_mem hb
  rw [List.foldl_append, List.foldl_cons, hstep]
  exact le_trans (length_dstep_pos _ _ _ _)
    (length_le_foldl step cOf vOf fOf hstep l₂ _)

theorem filter_eq_singleton_split {α : Type} (p : α → Bool) (l : List α) (a : α)
    (h : l.filter p = [a]) :
    ∃ l₁ l₂, l = l₁ ++ a :: l₂ ∧ (∀ x ∈ l₁, p x = false) ∧
      (∀ x ∈ l₂, p x = false) ∧ p a = true := by
  induction l with
  | nil => simp at h
  | cons x xs ih =>
    by_cases hx : p x
    · rw [List.filter_cons_of_pos hx] at h
      obtain ⟨rfl, hnil⟩ := List.cons.inj h
      refine ⟨[], xs, rfl, by simp, ?_, hx⟩
      intro y hy
      by_contra hpy
      have : y ∈ xs.filter p := List.mem_filter.mpr ⟨hy, by simpa using hpy⟩
      rw [hnil] at this
      simp at this
    · rw [List.filter_cons_of_neg hx] at h
      obtain ⟨l₁, l₂, rfl, h1, h2, ha⟩ := ih h
      refine ⟨x :: l₁, l₂, rfl, ?_, h2, ha⟩
      intro y hy
      rcases List.mem_cons.mp hy with rfl | hy
      · simpa using hx
      · exact h1 y hy

theorem mem_val_eq_dlookup (m : CDict) (c : String)
    (hnodup : (keys m).Nodup) (p : String × SRec) (hp : p ∈ m) (hpc : p.1 = c) :
    dlookup m c = some p.2 := by
  induction m with
  | nil => simp at hp
  | cons q m ih =>
    have hn : q.1 ∉ List.map Prod.fst m ∧ (List.map Prod.fst m).Nodup := by
      have h0 := hnodup
      simp only [keys, List.map_cons, List.nodup_cons] at h0
      exact h0
    rw [dlookup_cons]
    rcases List.mem_cons.mp hp with rfl | hp'
    · simp [hpc]
    · have hq : q.1 ≠ c := by
        intro hqc
        apply hn.1
        rw [hqc, ← hpc]
        exact List.mem_map.mpr ⟨p, hp', rfl⟩
      rw [if_neg hq]
      exact ih hn.2 hp'

theorem countP_vals_eq_one (m : CDict) (c : String)
    (hnodup : (keys m).Nodup) (hcodes : ∀ p ∈ m, p.2.course_code = p.1)
    (hmem : c ∈ keys m) :
    (m.map Prod.snd).countP (fun r => r.course_code == c) = 1 := by
  rw [List.countP_map]
  have hcongr : ∀ p ∈ m,
      ((fun r => r.course_code == c) ∘ Prod.snd) p ↔ (fun q : String × SRec => q.1 == c) p := by
    intro p hp
    simp [Function.comp, hcodes p hp]
  rw [List.countP_congr hcongr]
  have hkeys : m.countP (fun q : String × SRec => q.1 == c) = (keys m).count c := by
    rw [keys, List.count_eq_countP, List.countP_map]
    rfl
  rw [hkeys]
  exact List.count_eq_one_of_mem hnodup hmem

/-! ## RRF fusion: positivity of accumulated scores -/

theorem snd_mem_of_mem_enum1 (l : List SRec) (b : Nat × SRec) (hb : b ∈ enum1 l) :
    b.2 ∈ l := by
  have := List.mem_map_of_mem Prod.snd hb
  rwa [enum1, List.enumFrom_map_snd] at this

theorem rrfSemStep_eq (k : ℚ) (m : CDict) (b : Nat × SRec) :
    rrfSemStep k m b = dstep m b.2.course_code (rrfSemV b) (rrfSemF k b) := rfl

theorem rrfKwStep_eq (k : ℚ) (m : CDict) (b : Nat × SRec) :
    rrfKwStep k m b = dstep m b.2.course_code (rrfKwV b) (rrfKwF k b) := rfl

theorem wsSemStep_eq (m : CDict) (rec : SRec) :
    wsSemStep m rec = dstep m rec.course_code (wsSemV rec) (wsSemF rec) := rfl

theorem wsKwStep_eq (m : CDict) (rec : SRec) :
    wsKwStep m rec = dstep m rec.course_code (wsKwV rec) (wsKwF rec) := rfl

theorem rrfCombined_rrf_pos (sem kw : List SRec) (k : ℚ) (hk : 0 < k)
    (hsem : ∀ r ∈ sem, r.rrf_score = none)
    (hkw : ∀ r ∈ kw, r.rrf_score = none) :
    ∀ p ∈ rrfCombined sem kw k, ∃ x, p.2.rrf_score = some x ∧ 0 < x := by
  have hkpos : ∀ n : Nat, 0 < 1 / (k + (n : ℚ)) := by
    intro n
    apply div_pos one_pos
    exact add_pos_of_pos_of_nonneg hk (Nat.cast_nonneg n)
  have hinner : ∀ p ∈ (enum1 sem).foldl (rrfSemStep k) [],
      ∃ x, p.2.rrf_score = some x ∧ 0 < x := by
    refine vals_foldl (rrfSemStep k) (fun b => b.2.course_code) rrfSemV (rrfSemF k)
      (rrfSemStep_eq k) (enum1 sem) []
      (fun r => ∃ x, r.rrf_score = some x ∧ 0 < x) (by simp) ?_ ?_
    · intro b hb
      have hb2 := hsem b.2 (snd_mem_of_mem_enum1 sem b hb)
      exact ⟨1 / (k + (b.1 : ℚ)), by simp [rrfSemF, rrfSemV, hb2, getQ], hkpos b.1⟩
    · intro b hb w hw
      obtain ⟨x, hx, hxpos⟩ := hw
      exact ⟨x + 1 / (k + (b.1 : ℚ)), by simp [rrfSemF, hx, getQ],
        add_pos hxpos (hkpos b.1)⟩
  refine vals_foldl (rrfKwStep k) (fun b => b.2.course_code) rrfKwV (rrfKwF k)
    (rrfKwStep_eq k) (enum1 kw) _
    (fun r => ∃ x, r.rrf_score = some x ∧ 0 < x) hinner ?_ ?_
  · intro b hb
    have hb2 := hkw b.2 (snd_mem_of_mem_enum1 kw b hb)
    exact ⟨1 / (k + (b.1 : ℚ)), by simp [rrfKwF, rrfKwV, hb2, getQ], hkpos b.1⟩
  · intro b hb w hw
    obtain ⟨x, hx, hxpos⟩ := hw
    exact ⟨x + 1 / (k + (b.1 : ℚ)), by simp [rrfKwF, hx, getQ],
      add_pos hxpos (hkpos b.1)⟩

theorem rrfCombined_length_pos (sem kw : List SRec) (k : ℚ)
    (hne : sem ≠ [] ∨ kw ≠ []) :
    1 ≤ (rrfCombined sem kw k).length := by
  rcases hne with h | h
  · obtain ⟨b, hb⟩ := List.exists_mem_of_ne_nil (enum1 sem)
      (by simpa [enum1, ← List.length_pos, List.enumFrom_length] using
        List.length_pos.mpr h)
    calc 1 ≤ ((enum1 sem).foldl (rrfSemStep k) []).length :=
          length_foldl_pos (rrfSemStep k) (fun b => b.2.course_code) rrfSemV
            (rrfSemF k) (rrfSemStep_eq k) (enum1 sem) b [] hb
      _ ≤ (rrfCombined sem kw k).length :=
          length_le_foldl (rrfKwStep k) (fun b => b.2.course_code) rrfKwV
            (rrfKwF k) (rrfKwStep_eq k) (enum1 kw) _
  · obtain ⟨b, hb⟩ := List.exists_mem_of_ne_nil (enum1 kw)
      (by simpa [enum1, ← List.length_pos, List.enumFrom_length] using
        List.length_pos.mpr h)
    exact length_foldl_pos (rrfKwStep k) (fun b => b.2.course_code) rrfKwV
      (rrfKwF k) (rrfKwStep_eq k) (enum1 kw) b _ hb

/-- Claim C10: for every call to the RRF fusion where at least one
input leg is non-empty (legs carry no pre-existing `rrf_score` key, as
the legs produced by the search stages never do), the first result of
the merged output has `final_score` exactly 1, because the list is
sorted by descending raw RRF score and every score is divided by the
first element's raw RRF score. -/
theorem C10_rrf_head_final_score_one (sem kw : List SRec)
    (hne : sem ≠ [] ∨ kw ≠ [])
    (hsem : ∀ r ∈ sem, r.rrf_score = none)
    (hkw : ∀ r ∈ kw, r.rrf_score = none) :
    ∃ r0 rest, reciprocal_rank_fusion sem kw 60 = r0 :: rest ∧
      r0.final_score = some 1 := by
  have hvals : (rrfCombined sem kw 60).map Prod.snd ≠ [] := by
    have h1 := rrfCombined_length_pos sem kw 60 hne
    intro hnil
    have h2 : (rrfCombined sem kw 60).length = 0 := by
      have h3 := congrArg List.length hnil
      simpa using h3
    omega
  have hsne : sortDescBy rrfKey ((rrfCombined sem kw 60).map Prod.snd) ≠ [] := by
    intro hnil
    apply hvals
    have := length_sortDescBy rrfKey ((rrfCombined sem kw 60).map Prod.snd)
    rw [hnil] at this
    exact List.length_eq_zero.mp this.symm
  obtain ⟨r0, rest, heq⟩ := List.exists_cons_of_ne_nil hsne
  have hr0mem : r0 ∈ (rrfCombined sem kw 60).map Prod.snd := by
    rw [← mem_sortDescBy rrfKey]
    rw [heq]
    exact List.mem_cons_self _ _
  obtain ⟨p, hp, hpr⟩ := List.mem_map.mp hr0mem
  obtain ⟨mx, hmx, hmxpos⟩ :=
    (rrfCombined_rrf_pos sem kw 60 (by norm_num) hsem hkw) p hp
  rw [hpr] at hmx
  rw [reciprocal_rank_fusion, heq]
  simp only [rrfFinalize, List.map_cons]
  refine ⟨_, _, rfl, ?_⟩
  simp only [getQ, hmx, Option.getD_some]
  rw [if_neg (ne_of_gt hmxpos)]
  simp [div_self (ne_of_gt hmxpos)]

/-- Witness for C10 at a concrete input. -/
theorem C10_witness :
    ∃ r0 rest, reciprocal_rank_fusion [semLegA] [] 60 = r0 :: rest ∧
      r0.final_score = some 1 :=
  C10_rrf_head_final_score_one [semLegA] [] (Or.inl (by decide))
    (by decide) (by decide)

/-! ## C1: the merged entry of a document present in both legs -/

theorem wsCombined_dlookup (sem kw : List SRec) (c : String) (s k : SRec)
    (hs : sem.filter (fun r => r.course_code == c) = [s])
    (hk : kw.filter (fun r => r.course_code == c) = [k]) :
    dlookup (wsCombined sem kw) c = some (wsKwF k (wsSemF s (wsSemV s))) := by
  obtain ⟨s1, s2, rfl, hs1, hs2, hsc⟩ := filter_eq_singleton_split _ sem s hs
  obtain ⟨k1, k2, rfl, hk1, hk2, hkc⟩ := filter_eq_singleton_split _ kw k hk
  have hsc' : s.course_code = c := by simpa using hsc
  have hkc' : k.course_code = c := by simpa using hkc
  have hns1 : ∀ x ∈ s1, x.course_code ≠ s.course_code := by
    intro x hx heq
    have := hs1 x hx
    rw [hsc'] at heq
    simp [heq] at this
  have hns2 : ∀ x ∈ s2, x.course_code ≠ s.course_code := by
    intro x hx heq
    have := hs2 x hx
    rw [hsc'] at heq
    simp [heq] at this
  have hnk1 : ∀ x ∈ k1, x.course_code ≠ k.course_code := by
    intro x hx heq
    have := hk1 x hx
    rw [hkc'] at heq
    simp [heq] at this
  have hnk2 : ∀ x ∈ k2, x.course_code ≠ k.course_code := by
    intro x hx heq
    have := hk2 x hx
    rw [hkc'] at heq
    simp [heq] at this
  have hinner : dlookup ((s1 ++ s :: s2).foldl wsSemStep []) c =
      some (wsSemF s (wsSemV s)) := by
    have h := dlookup_foldl_single wsSemStep (fun r => r.course_code) wsSemV wsSemF
      wsSemStep_eq s1 s2 s [] hns1 hns2
    simpa [hsc', dlookup] using h
  rw [wsCombined]
  have h := dlookup_foldl_single wsKwStep (fun r => r.course_code) wsKwV wsKwF
    wsKwStep_eq k1 k2 k ((s1 ++ s :: s2).foldl wsSemStep []) hnk1 hnk2
  have hinner' := hinner
  simp only [List.foldl_append, List.foldl_cons] at hinner'
  simpa [hkc', hinner'] using h

theorem rrfCombined_dlookup (sem kw : List SRec) (c : String) (s k : SRec)
    (kc : ℚ)
    (hs : sem.filter (fun r => r.course_code == c) = [s])
    (hk : kw.filter (fun r => r.course_code == c) = [k]) :
    ∃ bs bk : Nat × SRec, bs.2 = s ∧ bk.2 = k ∧
      dlookup (rrfCombined sem kw kc) c =
        some (rrfKwF kc bk (rrfSemF kc bs (rrfSemV bs))) := by
  obtain ⟨s1, s2, rfl, hs1, hs2, hsc⟩ := filter_eq_singleton_split _ sem s hs
  obtain ⟨k1, k2, rfl, hk1, hk2, hkc⟩ := filter_eq_singleton_split _ kw k hk
  have hsc' : s.course_code = c := by simpa using hsc
  have hkc' : k.course_code = c := by simpa using hkc
  refine ⟨(1 + s1.length, s), (1 + k1.length, k), rfl, rfl, ?_⟩
  have henum_s : enum1 (s1 ++ s :: s2) =
      List.enumFrom 1 s1 ++ (1 + s1.length, s) :: List.enumFrom (1 + s1.length + 1) s2 := by
    rw [enum1, List.enumFrom_append]
    rfl
  have henum_k : enum1 (k1 ++ k :: k2) =
      List.enumFrom 1 k1 ++ (1 + k1.length, k) :: List.enumFrom (1 + k1.length + 1) k2 := by
    rw [enum1, List.enumFrom_append]
    rfl
  have hns1 : ∀ x ∈ List.enumFrom 1 s1, x.2.course_code ≠ s.course_code := by
    intro x hx heq
    have hx2 : x.2 ∈ s1 := by
      have := List.mem_map_of_mem Prod.snd hx
      rwa [List.enumFrom_map_snd] at this
    have := hs1 x.2 hx2
    rw [hsc'] at heq
    simp [heq] at this
  have hns2 : ∀ x ∈ List.enumFrom (1 + s1.length + 1) s2, x.2.course_code ≠ s.course_code := by
    intro x hx heq
    have hx2 : x.2 ∈ s2 := by
      have := List.mem_map_of_mem Prod.snd hx
      rwa [List.enumFrom_map_snd] at this
    have := hs2 x.2 hx2
    rw [hsc'] at heq
    simp [heq] at this
  have hnk1 : ∀ x ∈ List.enumFrom 1 k1, x.2.course_code ≠ k.course_code := by
    intro x hx heq
    have hx2 : x.2 ∈ k1 := by
      have := List.mem_map_of_mem Prod.snd hx
      rwa [List.enumFrom_map_snd] at this
    have := hk1 x.2 hx2
    rw [hkc'] at heq
    simp [heq] at this
  have hnk2 : ∀ x ∈ List.enumFrom (1 + k1.length + 1) k2, x.2.course_code ≠ k.course_code := by
    intro x hx heq
    have hx2 : x.2 ∈ k2 := by
      have := List.mem_map_of_mem Prod.snd hx
      rwa [List.enumFrom_map_snd] at this
    have := hk2 x.2 hx2
    rw [hkc'] at heq
    simp [heq] at this
  have hinner : dlookup ((enum1 (s1 ++ s :: s2)).foldl (rrfSemStep kc) []) c =
      some (rrfSemF kc (1 + s1.length, s) (rrfSemV (1 + s1.length, s))) := by
    rw [henum_s]
    have h := dlookup_foldl_single (rrfSemStep kc) (fun b => b.2.course_code)
      rrfSemV (rrfSemF kc) (rrfSemStep_eq kc)
      (List.enumFrom 1 s1) (List.enumFrom (1 + s1.length + 1) s2)
      (1 + s1.length, s) [] hns1 hns2
    simpa [hsc', dlookup] using h
  rw [rrfCombined, henum_k]
  have h := dlookup_foldl_single (rrfKwStep kc) (fun b => b.2.course_code)
    rrfKwV (rrfKwF kc) (rrfKwStep_eq kc)
    (List.enumFrom 1 k1) (List.enumFrom (1 + k1.length + 1) k2)
    (1 + k1.length, k) ((enum1 (s1 ++ s :: s2)).foldl (rrfSemStep kc) []) hnk1 hnk2
  simpa [hkc', hinner] using h

theorem wsCombined_codes (sem kw : List SRec) :
    ∀ p ∈ wsCombined sem kw, p.2.course_code = p.1 :=
  codes_foldl wsKwStep (fun r => r.course_code) wsKwV wsKwF wsKwStep_eq kw _
    (codes_foldl wsSemStep (fun r => r.course_code) wsSemV wsSemF wsSemStep_eq sem []
      (by simp) (fun b _ => by simp [wsSemV]) (fun b _ w => by simp [wsSemF]))
    (fun b _ => by simp [wsKwV]) (fun b _ w => by simp [wsKwF])

theorem wsCombined_keysNodup (sem kw : List SRec) :
    (keys (wsCombined sem kw)).Nodup :=
  keysNodup_foldl wsKwStep (fun r => r.course_code) wsKwV wsKwF wsKwStep_eq kw _
    (keysNodup_foldl wsSemStep (fun r => r.course_code) wsSemV wsSemF wsSemStep_eq sem []
      (by simp [keys]))

theorem rrfCombined_codes (sem kw : List SRec) (kc : ℚ) :
    ∀ p ∈ rrfCombined sem kw kc, p.2.course_code = p.1 :=
  codes_foldl (rrfKwStep kc) (fun b => b.2.course_code) rrfKwV (rrfKwF kc)
    (rrfKwStep_eq kc) (enum1 kw) _
    (codes_foldl (rrfSemStep kc) (fun b => b.2.course_code) rrfSemV (rrfSemF kc)
      (rrfSemStep_eq kc) (enum1 sem) []
      (by simp) (fun b _ => by simp [rrfSemV]) (fun b _ w => by simp [rrfSemF]))
    (fun b _ => by simp [rrfKwV]) (fun b _ w => by simp [rrfKwF])

theorem rrfCombined_keysNodup (sem kw : List SRec) (kc : ℚ) :
    (keys (rrfCombined sem kw kc)).Nodup :=
  keysNodup_foldl (rrfKwStep kc) (fun b => b.2.course_code) rrfKwV (rrfKwF kc)
    (rrfKwStep_eq kc) (enum1 kw) _
    (keysNodup_foldl (rrfSemStep kc) (fun b => b.2.course_code) rrfSemV (rrfSemF kc)
      (rrfSemStep_eq kc) (enum1 sem) [] (by simp [keys]))

/-- Claim C1 (amended): for every pair of leg result lists, a document
that appears (by `course_code`) exactly once in each leg appears
exactly once in the merged output of both fusion strategies.  Under
weighted sum the merged entry carries both score contributions: the
`similarity_score` attached by the semantic leg and the
`keyword_score` attached by the keyword leg.  Under RRF the merged
entry carries the semantic leg's `similarity_score` unchanged, but its
`keyword_score` is 0.0 — the semantic loop defaults the missing key to
0.0 and the keyword loop only `setdefault`s it, so the keyword leg's
actual score is dropped for documents present in both legs. -/
theorem C1_amended_merge (sem kw : List SRec) (c : String) (s k : SRec)
    (alpha beta : ℚ)
    (hs : sem.filter (fun r => r.course_code == c) = [s])
    (hk : kw.filter (fun r => r.course_code == c) = [k])
    (hsk : s.keyword_score = none) :
    ((weighted_sum sem kw alpha beta).countP (fun r => r.course_code == c) = 1 ∧
      ∀ e ∈ weighted_sum sem kw alpha beta, e.course_code = c →
        e.similarity_score = some (getQ s.similarity_score 0) ∧
        e.keyword_score = some (getQ k.keyword_score 0)) ∧
    ((reciprocal_rank_fusion sem kw 60).countP (fun r => r.course_code == c) = 1 ∧
      ∀ e ∈ reciprocal_rank_fusion sem kw 60, e.course_code = c →
        e.similarity_score = s.similarity_score ∧ e.keyword_score = some 0) := by
  have hlookW := wsCombined_dlookup sem kw c s k hs hk
  have hcodesW := wsCombined_codes sem kw
  have hnodupW := wsCombined_keysNodup sem kw
  have hmemW : c ∈ keys (wsCombined sem kw) := by
    rw [← containsKey_iff_mem_keys, containsKey_eq_isSome, hlookW]
    rfl
  obtain ⟨bs, bk, hbs, hbk, hlookR⟩ := rrfCombined_dlookup sem kw c s k 60 hs hk
  have hcodesR := rrfCombined_codes sem kw 60
  have hnodupR := rrfCombined_keysNodup sem kw 60
  have hmemR : c ∈ keys (rrfCombined sem kw 60) := by
    rw [← containsKey_iff_mem_keys, containsKey_eq_isSome, hlookR]
    rfl
  constructor
  · constructor
    · rw [weighted_sum, (sortDescBy_perm finalKey _).countP_eq, wsScored,
        List.countP_map]
      have hcg : ∀ p ∈ wsCombined sem kw,
          ((fun r => r.course_code == c) ∘ fun p => wsFinal alpha beta p.2) p ↔
            ((fun r => r.course_code == c) ∘ Prod.snd) p := by
        intro p hp
        simp [wsFinal, Function.comp]
      rw [List.countP_congr hcg, ← List.countP_map]
      exact countP_vals_eq_one _ c hnodupW hcodesW hmemW
    · intro e he hec
      rw [weighted_sum, mem_sortDescBy, wsScored, List.mem_map] at he
      obtain ⟨p, hp, rfl⟩ := he
      have hpc : p.1 = c := by
        rw [← hcodesW p hp]
        simpa [wsFinal] using hec
      have := mem_val_eq_dlookup _ c hnodupW p hp hpc
      rw [hlookW] at this
      have hval : p.2 = wsKwF k (wsSemF s (wsSemV s)) := by
        injection this with h
        exact h.symm
      rw [hval]
      constructor
      · simp [wsFinal, wsKwF, wsSemF, wsSemV]
      · simp [wsFinal, wsKwF, wsSemF, wsSemV]
  · have hsimfield : (rrfKwF 60 bk (rrfSemF 60 bs (rrfSemV bs))).similarity_score =
        s.similarity_score := by
      simp [rrfKwF, rrfSemF, rrfSemV, hbs]
    have hkwfield : (rrfKwF 60 bk (rrfSemF 60 bs (rrfSemV bs))).keyword_score = some 0 := by
      simp [rrfKwF, rrfSemF, rrfSemV, hbs, hsk, setdefaultQ]
    constructor
    · rw [reciprocal_rank_fusion]
      have hfin : ∀ l : List SRec,
          (rrfFinalize l).countP (fun r => r.course_code == c) =
            l.countP (fun r => r.course_code == c) := by
        intro l
        cases l with
        | nil => rfl
        | cons r0 rest =>
          simp only [rrfFinalize]
          rw [List.countP_map]
          apply List.countP_congr
          intro a ha
          simp [Function.comp]
      rw [hfin, (sortDescBy_perm rrfKey _).countP_eq]
      exact countP_vals_eq_one _ c hnodupR hcodesR hmemR
    · intro e he hec
      rw [reciprocal_rank_fusion] at he
      rcases hsort : sortDescBy rrfKey ((rrfCombined sem kw 60).map Prod.snd) with _ | ⟨r0, rest⟩
      · rw [hsort] at he
        simp [rrfFinalize] at he
      · rw [hsort] at he
        simp only [rrfFinalize, List.mem_map] at he
        obtain ⟨w, hw, rfl⟩ := he
        have hwvals : w ∈ (rrfCombined sem kw 60).map Prod.snd := by
          rw [← mem_sortDescBy rrfKey, hsort]
          exact hw
        obtain ⟨p, hp, rfl⟩ := List.mem_map.mp hwvals
        have hpc : p.1 = c := by
          rw [← hcodesR p hp]
          simpa using hec
        have := mem_val_eq_dlookup _ c hnodupR p hp hpc
        rw [hlookR] at this
        have hval2 : p.2 = rrfKwF 60 bk (rrfSemF 60 bs (rrfSemV bs)) := by
          injection this with h
          exact h.symm
        constructor
        · rw [hval2]
          simp [hsimfield]
        · rw [hval2]
          simp [hkwfield]

/-- Counterexample to claim C1 as stated: for the RRF strategy, a
document present in both legs does not carry its keyword leg's
`keyword_score` (4/5 here) — the merged entry's `keyword_score` is 0. -/
theorem C1_counterexample :
    (reciprocal_rank_fusion [semLegA] [kwLegA] 60).map SRec.keyword_score = [some 0] ∧
      kwLegA.keyword_score = some (4 / 5) ∧ ((0 : ℚ) ≠ 4 / 5) := by
  refine ⟨?_, rfl, by norm_num⟩
  simp [reciprocal_rank_fusion, rrfCombined, enum1, rrfSemStep, rrfKwStep, dstep,
    dictAdd, dmodify, containsKey, sortDescBy, insertDescBy, rrfFinalize,
    semLegA, kwLegA, recA, setdefaultQ, getQ, rrfKey]

/-- Witness for C1 (amended) at a concrete input. -/
theorem C1_amended_merge_witness :
    (([semLegA].filter (fun r => r.course_code == "CSCI0150") = [semLegA]) ∧
     ([kwLegA].filter (fun r => r.course_code == "CSCI0150") = [kwLegA]) ∧
     semLegA.keyword_score = none) ∧
    (((weighted_sum [semLegA] [kwLegA] (7/10) (3/10)).countP
        (fun r => r.course_code == "CSCI0150") = 1 ∧
      ∀ e ∈ weighted_sum [semLegA] [kwLegA] (7/10) (3/10), e.course_code = "CSCI0150" →
        e.similarity_score = some (getQ semLegA.similarity_score 0) ∧
        e.keyword_score = some (getQ kwLegA.keyword_score 0)) ∧
     ((reciprocal_rank_fusion [semLegA] [kwLegA] 60).countP
        (fun r => r.course_code == "CSCI0150") = 1 ∧
      ∀ e ∈ reciprocal_rank_fusion [semLegA] [kwLegA] 60, e.course_code = "CSCI0150" →
        e.similarity_score = semLegA.similarity_score ∧ e.keyword_score = some 0)) :=
  ⟨⟨rfl, rfl, rfl⟩,
    C1_amended_merge [semLegA] [kwLegA] "CSCI0150" semLegA kwLegA (7/10) (3/10)
      rfl rfl rfl⟩

/-! ## C4, C2, C7, C3: persistence, staleness and validation -/

/-- Claim C4 (amended): `load` fails with `FAISSIndexMissingError` when
either persisted artifact is absent (FAISS file checked first), and on
success returns the persisted pair unchanged.  Deserialisation
failures surface as the raising library's own exceptions — the
repository defines no `CorruptIndexError` — and no size-agreement
check is performed: artifacts whose sizes disagree load successfully. -/
theorem C4_amended_load (fs : FS) :
    (fs.faissFile = none →
      load_index fs = .error (.faissIndexMissing "FAISS index not found")) ∧
    (∀ ff, fs.faissFile = some ff → fs.metaFile = none →
      load_index fs = .error (.faissIndexMissing "Metadata file not found")) ∧
    (∀ ff mf index metadata, fs.faissFile = some ff → fs.metaFile = some mf →
      ff.data = .good index → mf.data = .good metadata →
      load_index fs = .ok (index, metadata)) ∧
    (∀ ff mf, fs.faissFile = some ff → fs.metaFile = some mf →
      ff.data = .corrupt → load_index fs = .error .faissReadError) ∧
    (∀ ff mf index, fs.faissFile = some ff → fs.metaFile = some mf →
      ff.data = .good index → mf.data = .corrupt →
      load_index fs = .error .unpicklingError) := by
  refine ⟨?_, ?_, ?_, ?_, ?_⟩ <;> intros <;> simp_all [load_index]

/-- Witness for C4 (amended): the mismatched pair loads successfully. -/
theorem C4_amended_load_witness :
    load_index fsMismatch = .ok ([[1], [1]], [recA]) :=
  (C4_amended_load fsMismatch).2.2.1 ⟨.good [[1], [1]], 5⟩ ⟨.good [recA], 5⟩
    [[1], [1]] [recA] rfl rfl rfl rfl

/-- Counterexample to claim C4 as stated: the persisted artifacts of
`fsMismatch` disagree in size (2 index rows vs 1 metadata record), yet
`load_index` succeeds instead of failing with a `CorruptIndexError`
(no such error class exists in the code). -/
theorem C4_counterexample :
    load_index fsMismatch = .ok ([[1], [1]], [recA]) ∧
      ([[1], [1]] : List (List ℚ)).length ≠ ([recA] : List SRec).length :=
  ⟨rfl, by decide⟩

theorem rebuildPath_embedFail_snd (fs : FS) (embedOf : List SRec → List (List ℚ))
    (now : Nat) : (rebuildPath fs embedOf now .embedFail).2 = fs := by
  rcases h : fs.courses with _ | cf
  · simp [rebuildPath, h]
  · rcases hd : cf.data with records | _ <;> simp [rebuildPath, h, hd, rebuildTail]

/-- Claim C2 (amended): a rebuild that fails before persistence begins
— on the load path, on a missing or unreadable corpus, or because the
embedding gateway fails inside `build_index` — leaves the on-disk
artifacts exactly as before, since the whole index is built in memory
before any write.  Persistence itself, however, writes both files in
place at their final paths (no temporary file, no swap), so a failure
during the metadata write leaves a mixed pair on disk: the freshly
written index beside corrupt metadata. -/
theorem C2_amended_rebuild (fs : FS) (embedOf : List SRec → List (List ℚ))
    (now : Nat) (force : Bool) :
    ((load_or_build fs embedOf now force .embedFail).2 = fs) ∧
    (∀ records t, fs.courses = some ⟨.good records, t⟩ →
      index_is_stale fs = .ok true →
      (load_or_build fs embedOf now false .metaWriteFail).2 =
        { fs with faissFile := some ⟨.good (embedOf records), now⟩,
                  metaFile := some ⟨.corrupt, now⟩ }) := by
  constructor
  · rw [load_or_build]
    split
    · split
      · rfl
      · rfl
      · exact rebuildPath_embedFail_snd fs embedOf now
    · exact rebuildPath_embedFail_snd fs embedOf now
  · intro records t hc hstale
    have hpath : (rebuildPath fs embedOf now .metaWriteFail).2 =
        { fs with faissFile := some ⟨.good (embedOf records), now⟩,
                  metaFile := some ⟨.corrupt, now⟩ } := by
      simp [rebuildPath, hc, rebuildTail]
    rw [load_or_build]
    split
    · rw [hstale]
      exact hpath
    · exact hpath

/-- Witness for C2 (amended) at the concrete stale filesystem `fs0`. -/
theorem C2_amended_rebuild_witness :
    ((load_or_build fs0 (fun rs => [[1]]) 12 false .embedFail).2 = fs0) ∧
    ((load_or_build fs0 (fun rs => [[1]]) 12 false .metaWriteFail).2 =
      { fs0 with faissFile := some ⟨.good [[1]], 12⟩,
                 metaFile := some ⟨.corrupt, 12⟩ }) :=
  ⟨(C2_amended_rebuild fs0 (fun rs => [[1]]) 12 false).1,
   (C2_amended_rebuild fs0 (fun rs => [[1]]) 12 false).2 [recA] 10 rfl rfl⟩

/-- Counterexample to claim C2 as stated: after a rebuild over the
valid but stale snapshot `fs0` fails during the metadata write, the
on-disk snapshot pair differs from the pair that existed before the
rebuild started — persistence is write-in-place, not write-then-swap. -/
theorem C2_counterexample :
    ((load_or_build fs0 (fun rs => [[1]]) 12 false .metaWriteFail).2.faissFile,
     (load_or_build fs0 (fun rs => [[1]]) 12 false .metaWriteFail).2.metaFile) ≠
      (fs0.faissFile, fs0.metaFile) := by
  decide

/-- Claim C7: `index_is_stale` returns true exactly when either
persisted artifact is missing or the corpus file's mtime is strictly
newer than the older of the two artifact mtimes; and immediately after
a successful rebuild triggered by a stale snapshot (performed at a time
`now` no earlier than the corpus mtime), the staleness check is false. -/
theorem C7_staleness (fs : FS) (cf : DiskFile (List SRec))
    (hc : fs.courses = some cf) :
    ((fs.faissFile = none ∨ fs.metaFile = none) → index_is_stale fs = .ok true) ∧
    (∀ ff mf, fs.faissFile = some ff → fs.metaFile = some mf →
      (index_is_stale fs = .ok true ↔ min ff.mtime mf.mtime < cf.mtime)) ∧
    (∀ records t now embedOf, cf = ⟨.good records, t⟩ → t ≤ now →
      index_is_stale fs = .ok true →
      index_is_stale (load_or_build fs embedOf now false .buildOk).2 = .ok false) := by
  refine ⟨?_, ?_, ?_⟩
  · intro h
    rcases h with h | h <;>
      rcases hf : fs.faissFile with _ | ff <;>
      rcases hm : fs.metaFile with _ | mf <;>
      simp_all [index_is_stale]
  · intro ff mf hf hm
    simp [index_is_stale, hf, hm, hc]
  · intro records t now embedOf hcf hle hstale
    have hfs2 : (load_or_build fs embedOf now false .buildOk).2 =
        save_index fs (embedOf records) records now := by
      have hpath : (rebuildPath fs embedOf now .buildOk).2 =
          save_index fs (embedOf records) records now := by
        rw [hcf] at hc
        simp [rebuildPath, hc, rebuildTail]
      rw [load_or_build]
      split
      · rw [hstale]
        exact hpath
      · exact hpath
    rw [hfs2]
    rw [hcf] at hc
    simp [index_is_stale, save_index, hc]
    omega

/-- Witness for C7 at the concrete stale filesystem `fs0`. -/
theorem C7_staleness_witness :
    index_is_stale fs0 = .ok true ∧
    index_is_stale (load_or_build fs0 (fun rs => [[1]]) 12 false .buildOk).2 = .ok false :=
  ⟨rfl,
   (C7_staleness fs0 ⟨.good [recA], 10⟩ rfl).2.2 [recA] 10 12 (fun rs => [[1]])
     rfl (by norm_num) rfl⟩

/-- Claim C3 (amended): a query that is absent or whitespace-only after
trimming is rejected at the HTTP boundary — `post_query` answers
400 "q field is required" without reaching the pipeline.  The
orchestrator's own `query` performs no validation: for every question
string (whitespace-only included) it returns a normal `.ok` result,
running retrieval; no `InvalidQueryError` class exists in the code. -/
theorem C3_amended_validation
    (rag : Option (String → Except PyExc QueryOut)) (q : Option String)
    (hq : (pyStrip (q.getD "")).isEmpty = true)
    (index : List (List ℚ)) (metadata : List SRec)
    (embedOf : String → List ℚ) (tokensOf : String → List String)
    (bm25Of : List String → List ℚ)
    (generateAnswer : String → List SRec → String × String)
    (question : String) (topK : Nat) (department source : Option String)
    (mode : Mode) (fusion : Fusion) (alpha beta : ℚ) (generate : Bool) :
    post_query rag q = .httpError 400 "q field is required" ∧
    ∃ out : QueryOut,
      ragQuery index metadata embedOf tokensOf bm25Of generateAnswer question
        topK department source mode fusion alpha beta generate = .ok out ∧
      out.question = question := by
  constructor
  · rcases q with _ | s
    · rfl
    · simp only [Option.getD_some] at hq
      simp [post_query, hq]
  · exact ⟨_, rfl, rfl⟩

/-- Witness for C3 (amended) at concrete inputs. -/
theorem C3_amended_validation_witness :
    post_query none (some "   ") = .httpError 400 "q field is required" ∧
    ∃ out : QueryOut,
      ragQuery [] [] (fun q => []) (fun q => []) (fun ts => [])
        (fun q rs => ("", "")) "   " 5 none none .hybrid .weighted (7/10) (3/10)
        true = .ok out ∧ out.question = "   " :=
  C3_amended_validation none (some "   ") rfl [] [] (fun q => []) (fun q => [])
    (fun ts => []) (fun q rs => ("", "")) "   " 5 none none .hybrid .weighted
    (7/10) (3/10) true

/-- Counterexample to claim C3 as stated: on the whitespace-only query
the orchestrator's `query` does not fail with any error — it runs
retrieval and returns a normal (empty-result) answer dict. -/
theorem C3_counterexample :
    ragQuery [] [] (fun q => []) (fun q => []) (fun ts => [])
      (fun q rs => ("", "")) "   " 5 none none .hybrid .weighted (7/10) (3/10)
      true = .ok ⟨"   ", "", "", []⟩ := by
  rfl

/-! ## C5: candidate pool size, filter order, truncation -/

theorem mem_enumFrom_bounds {α : Type} (l : List α) (n : Nat) (p : Nat × α)
    (hp : p ∈ l.enumFrom n) : n ≤ p.1 ∧ p.1 < n + l.length ∧ p.2 ∈ l := by
  induction l generalizing n with
  | nil => simp at hp
  | cons x xs ih =>
    rw [List.enumFrom_cons] at hp
    rcases List.mem_cons.mp hp with rfl | hp'
    · simp
    · obtain ⟨h1, h2, h3⟩ := ih (n + 1) hp'
      refine ⟨by omega, ?_, by simp [h3]⟩
      simp only [List.length_cons]
      omega

theorem faissSearch_length (index : List (List ℚ)) (q : List ℚ) (fk : Nat) :
    (faissSearch index q fk).length = min fk index.length := by
  rw [faissSearch, List.length_take, length_sortDescBy, List.length_map,
    List.enum_eq_enumFrom, List.enumFrom_length, List.length_map]

theorem faissSearch_sorted (index : List (List ℚ)) (q : List ℚ) (fk : Nat) :
    (faissSearch index q fk).Pairwise (fun a b => b.1 ≤ a.1) := by
  rw [faissSearch]
  exact List.Pairwise.sublist (List.take_sublist _ _)
    (sortDescBy_pairwise (fun p : ℚ × Int => p.1) _)

theorem faissSearch_ids (index : List (List ℚ)) (q : List ℚ) (fk : Nat) :
    ∀ p ∈ faissSearch index q fk, 0 ≤ p.2 ∧ p.2.toNat < index.length := by
  intro p hp
  rw [faissSearch] at hp
  have hp2 := List.mem_of_mem_take hp
  rw [mem_sortDescBy] at hp2
  obtain ⟨⟨i, s⟩, hmem, rfl⟩ := List.mem_map.mp hp2
  rw [List.enum_eq_enumFrom] at hmem
  obtain ⟨h1, h2, h3⟩ := mem_enumFrom_bounds _ 0 _ hmem
  rw [List.length_map] at h2
  constructor
  · exact Int.ofNat_nonneg i
  · simpa using h2

theorem searchLoop_skip_neg1 (metadata : List SRec) (dep src : Option String)
    (topK count : Nat) (score : ℚ) (rest : List (ℚ × Int)) :
    searchLoop metadata dep src topK count ((score, -1) :: rest) =
      searchLoop metadata dep src topK count rest := by
  simp [searchLoop]

theorem searchLoop_eq_take (metadata : List SRec) (dep src : Option String)
    (topK : Nat) :
    ∀ (pairs : List (ℚ × Int)) (count : Nat), count < topK →
      (∀ p ∈ pairs, p.2 ≠ -1 → p.2.toNat < metadata.length) →
      searchLoop metadata dep src topK count pairs =
        (acceptedOf metadata dep src pairs).take (topK - count) := by
  intro pairs
  induction pairs with
  | nil =>
    intro count hcount hin
    simp [searchLoop, acceptedOf]
  | cons p rest ih =>
    intro count hcount hin
    obtain ⟨score, idx⟩ := p
    have hin' : ∀ x ∈ rest, x.2 ≠ -1 → x.2.toNat < metadata.length := by
      intro x hx
      exact hin x (List.mem_cons_of_mem _ hx)
    by_cases hidx : idx = -1
    · subst hidx
      have h2 : acceptedOf metadata dep src ((score, -1) :: rest) =
          acceptedOf metadata dep src rest := by
        simp [acceptedOf, List.filterMap_cons]
      rw [searchLoop_skip_neg1, h2]
      exact ih count hcount hin'
    · have hlt : idx.toNat < metadata.length := hin (score, idx) (List.mem_cons_self _ _) hidx
      have hr : metadata[idx.toNat]? = some (metadata[idx.toNat]) :=
        List.getElem?_eq_getElem hlt
      have h1 : searchLoop metadata dep src topK count ((score, idx) :: rest) =
          (if deptRejects dep (metadata[idx.toNat]) then
            searchLoop metadata dep src topK count rest
           else if srcRejects src (metadata[idx.toNat]) then
            searchLoop metadata dep src topK count rest
           else if topK ≤ count + 1 then
            [{ metadata[idx.toNat] with similarity_score := some (clip01 score) }]
           else { metadata[idx.toNat] with similarity_score := some (clip01 score) } ::
             searchLoop metadata dep src topK (count + 1) rest) := by
        simp [searchLoop, hidx, hr]
      have h2 : acceptedOf metadata dep src ((score, idx) :: rest) =
          (if deptRejects dep (metadata[idx.toNat]) then
            acceptedOf metadata dep src rest
           else if srcRejects src (metadata[idx.toNat]) then
            acceptedOf metadata dep src rest
           else { metadata[idx.toNat] with similarity_score := some (clip01 score) } ::
             acceptedOf metadata dep src rest) := by
        by_cases hd : deptRejects dep (metadata[idx.toNat]) <;>
          by_cases hs : srcRejects src (metadata[idx.toNat]) <;>
          simp [acceptedOf, List.filterMap_cons, hidx, hr, hd, hs]
      rw [h1, h2]
      by_cases hd : deptRejects dep (metadata[idx.toNat])
      · simp only [if_pos hd]
        exact ih count hcount hin'
      · simp only [if_neg hd]
        by_cases hs : srcRejects src (metadata[idx.toNat])
        · simp only [if_pos hs]
          exact ih count hcount hin'
        · simp only [if_neg hs]
          by_cases hfull : topK ≤ count + 1
          · have hone : topK - count = 1 := by omega
            simp [if_pos hfull, hone]
          · have hsplit : topK - count = (topK - (count + 1)) + 1 := by omega
            simp only [if_neg hfull, hsplit, List.take_succ_cons]
            rw [ih (count + 1) (by omega) hin']

/-- Claim C5: the candidate pool of `search` has size `topK × 3` when a
department or source filter is active and `topK` otherwise, capped at
the index's row count; the pool is in descending score order (so the
filters are applied in score order); accumulation stops once `topK`
matches are collected (the result is the first `topK` accepted
candidates of the pool); and when the pool is exhausted before
reaching `topK` the whole accepted list is returned — a shorter list,
not an error. -/
theorem C5_search_pool (index : List (List ℚ)) (metadata : List SRec)
    (q : List ℚ) (topK : Nat) (dep src : Option String)
    (hlen : metadata.length = index.length) (htop : 1 ≤ topK) :
    (faissSearch index q (fetchKOf topK dep src index.length)).length =
      min (if filterActive dep src then topK * 3 else topK) index.length ∧
    (faissSearch index q (fetchKOf topK dep src index.length)).Pairwise
      (fun a b => b.1 ≤ a.1) ∧
    vsSearch index metadata q topK dep src =
      (acceptedOf metadata dep src
        (faissSearch index q (fetchKOf topK dep src index.length))).take topK ∧
    (vsSearch index metadata q topK dep src).length ≤ topK ∧
    ((acceptedOf metadata dep src
        (faissSearch index q (fetchKOf topK dep src index.length))).length ≤ topK →
      vsSearch index metadata q topK dep src =
        acceptedOf metadata dep src
          (faissSearch index q (fetchKOf topK dep src index.length))) := by
  have hids : ∀ p ∈ faissSearch index q (fetchKOf topK dep src index.length),
      p.2 ≠ -1 → p.2.toNat < metadata.length := by
    intro p hp _
    rw [hlen]
    exact (faissSearch_ids index q _ p hp).2
  have heq : vsSearch index metadata q topK dep src =
      (acceptedOf metadata dep src
        (faissSearch index q (fetchKOf topK dep src index.length))).take topK := by
    rw [vsSearch, searchLoop_eq_take metadata dep src topK _ 0 (by omega) hids,
      Nat.sub_zero]
  refine ⟨?_, faissSearch_sorted index q _, heq, ?_, ?_⟩
  · rw [faissSearch_length, fetchKOf]
    omega
  · rw [heq]
    exact le_trans (List.length_take_le _ _) (le_refl _)
  · intro hshort
    rw [heq]
    exact List.take_of_length_le hshort

/-- Witness for C5 at a concrete input: two rows, a source filter, and
`topK = 1`. -/
theorem C5_search_pool_witness :
    (faissSearch [[1], [2]] [1] (fetchKOf 1 none (some "CAB") 2)).length =
      min (if filterActive none (some "CAB") then 1 * 3 else 1) 2 ∧
    (faissSearch [[1], [2]] [1] (fetchKOf 1 none (some "CAB") 2)).Pairwise
      (fun a b => b.1 ≤ a.1) ∧
    vsSearch [[1], [2]] [recA, recB] [1] 1 none (some "CAB") =
      (acceptedOf [recA, recB] none (some "CAB")
        (faissSearch [[1], [2]] [1] (fetchKOf 1 none (some "CAB") 2))).take 1 ∧
    (vsSearch [[1], [2]] [recA, recB] [1] 1 none (some "CAB")).length ≤ 1 ∧
    ((acceptedOf [recA, recB] none (some "CAB")
        (faissSearch [[1], [2]] [1] (fetchKOf 1 none (some "CAB") 2))).length ≤ 1 →
      vsSearch [[1], [2]] [recA, recB] [1] 1 none (some "CAB") =
        acceptedOf [recA, recB] none (some "CAB")
          (faissSearch [[1], [2]] [1] (fetchKOf 1 none (some "CAB") 2))) :=
  C5_search_pool [[1], [2]] [recA, recB] [1] 1 none (some "CAB") rfl (by omega)

/-! ## C9: records lacking filter fields, and padding ids -/

theorem str_isEmpty_false (s : String) (h : s.data ≠ []) : s.isEmpty = false := by
  cases s with
  | mk data =>
    cases data with
    | nil => simp at h
    | cons c cs =>
      have hb : (String.mk (c :: cs)).endPos.byteIdx ≠ 0 := by
        show (String.mk (c :: cs)).utf8ByteSize ≠ 0
        simp only [String.utf8ByteSize]
        show String.utf8ByteSize.go (c :: cs) ≠ 0
        simp only [String.utf8ByteSize.go]
        have := Char.utf8Size_pos c
        omega
      simp only [String.isEmpty, beq_eq_false_iff_ne, ne_eq, String.Pos.ext_iff]
      simpa using hb

theorem data_ne_nil_of_ne_empty (s : String) (h : s ≠ "") : s.data ≠ [] := by
  intro hd
  apply h
  cases s
  simp only at hd
  rw [hd]

theorem deptRejects_of_missing (d : String) (hd : d ≠ "") (r : SRec)
    (hr : r.department = none) : deptRejects (some d) r = true := by
  have hdata := data_ne_nil_of_ne_empty d hd
  simp only [deptRejects, hr, Option.getD_none]
  rw [str_isEmpty_false d hdata]
  have hcontains : strContains (pyLower "") (pyLower d) = false := by
    simp only [strContains, pyLower, decide_eq_false_iff_not]
    intro hinf
    have := List.eq_nil_of_infix_nil hinf
    simp only [List.map_eq_nil] at this
    exact hdata this
  rw [hcontains]
  rfl

theorem srcRejects_of_missing (s0 : String) (hs : s0 ≠ "") (r : SRec)
    (hr : r.source = none) : srcRejects (some s0) r = true := by
  have hdata := data_ne_nil_of_ne_empty s0 hs
  simp only [srcRejects, hr, Option.getD_none]
  rw [str_isEmpty_false s0 hdata]
  have hne : (pyUpper "" = pyUpper s0) = False := by
    simp only [eq_iff_iff, iff_false]
    intro heq
    apply hdata
    have : (pyUpper "").data = (pyUpper s0).data := by rw [heq]
    simp only [pyUpper, List.map_eq_nil] at this
    rcases hu : s0.data with _ | ⟨c, cs⟩
    · rfl
    · rw [hu] at this
      simp at this
  simp [hne]

theorem deptRejects_update_sim (dep : Option String) (r : SRec) (x : Option ℚ) :
    deptRejects dep { r with similarity_score := x } = deptRejects dep r := by
  cases dep <;> rfl

theorem srcRejects_update_sim (src : Option String) (r : SRec) (x : Option ℚ) :
    srcRejects src { r with similarity_score := x } = srcRejects src r := by
  cases src <;> rfl

theorem deptRejects_update_kw (dep : Option String) (r : SRec) (x : Option ℚ) :
    deptRejects dep { r with keyword_score := x } = deptRejects dep r := by
  cases dep <;> rfl

theorem srcRejects_update_kw (src : Option String) (r : SRec) (x : Option ℚ) :
    srcRejects src { r with keyword_score := x } = srcRejects src r := by
  cases src <;> rfl

theorem searchLoop_shape (metadata : List SRec) (dep src : Option String)
    (topK : Nat) :
    ∀ (pairs : List (ℚ × Int)) (count : Nat),
      ∀ r ∈ searchLoop metadata dep src topK count pairs,
        ∃ r0 score, r0 ∈ metadata ∧ deptRejects dep r0 = false ∧
          srcRejects src r0 = false ∧ (∃ p ∈ pairs, p.1 = score) ∧
          r = { r0 with similarity_score := some (clip01 score) } := by
  intro pairs
  induction pairs with
  | nil =>
    intro count r hr
    simp [searchLoop] at hr
  | cons p rest ih =>
    intro count r hr
    obtain ⟨score, idx⟩ := p
    have hmono : ∀ r ∈ searchLoop metadata dep src topK count rest, _ := fun r hr =>
      ih count r hr
    by_cases hidx : idx = -1
    · subst hidx
      rw [searchLoop_skip_neg1] at hr
      obtain ⟨r0, sc, h1, h2, h3, ⟨p, hp, hps⟩, h5⟩ := ih count r hr
      exact ⟨r0, sc, h1, h2, h3, ⟨p, List.mem_cons_of_mem _ hp, hps⟩, h5⟩
    · cases hm : metadata[idx.toNat]? with
      | none =>
        rw [searchLoop] at hr
        simp only [hidx, if_neg hidx, hm] at hr
        simp at hr
      | some r0 =>
        rw [searchLoop] at hr
        simp only [hidx, if_neg hidx, hm] at hr
        by_cases hd : deptRejects dep r0
        · simp only [hd, if_true] at hr
          obtain ⟨r1, sc, h1, h2, h3, ⟨p, hp, hps⟩, h5⟩ := ih count r hr
          exact ⟨r1, sc, h1, h2, h3, ⟨p, List.mem_cons_of_mem _ hp, hps⟩, h5⟩
        · simp only [hd, Bool.false_eq_true, if_false] at hr
          by_cases hs : srcRejects src r0
          · simp only [hs, if_true] at hr
            obtain ⟨r1, sc, h1, h2, h3, ⟨p, hp, hps⟩, h5⟩ := ih count r hr
            exact ⟨r1, sc, h1, h2, h3, ⟨p, List.mem_cons_of_mem _ hp, hps⟩, h5⟩
          · simp only [hs, Bool.false_eq_true, if_false] at hr
            have hr0mem : r0 ∈ metadata := List.getElem?_mem hm
            by_cases hfull : topK ≤ count + 1
            · simp only [hfull, if_true, List.mem_singleton] at hr
              exact ⟨r0, score, hr0mem, by simpa using hd, by simpa using hs,
                ⟨(score, idx), List.mem_cons_self _ _, rfl⟩, hr⟩
            · simp only [hfull, if_false] at hr
              rcases List.mem_cons.mp hr with rfl | hr'
              · exact ⟨r0, score, hr0mem, by simpa using hd, by simpa using hs,
                  ⟨(score, idx), List.mem_cons_self _ _, rfl⟩, rfl⟩
              · obtain ⟨r1, sc, h1, h2, h3, ⟨p, hp, hps⟩, h5⟩ := ih (count + 1) r hr'
                exact ⟨r1, sc, h1, h2, h3, ⟨p, List.mem_cons_of_mem _ hp, hps⟩, h5⟩

theorem kwLoop_shape (records : List SRec) (dep src : Option String)
    (topK : Nat) :
    ∀ (pairs : List (Nat × ℚ)) (count : Nat),
      ∀ r ∈ kwLoop records dep src topK count pairs,
        ∃ r0 score, r0 ∈ records ∧ deptRejects dep r0 = false ∧
          srcRejects src r0 = false ∧ 0 < score ∧ (∃ p ∈ pairs, p.2 = score) ∧
          r = { r0 with keyword_score := some score } := by
  intro pairs
  induction pairs with
  | nil =>
    intro count r hr
    simp [kwLoop] at hr
  | cons p rest ih =>
    intro count r hr
    obtain ⟨idx, score⟩ := p
    by_cases hscore : score ≤ 0
    · rw [kwLoop] at hr
      simp only [hscore, if_pos] at hr
      simp at hr
    · cases hm : records[idx]? with
      | none =>
        rw [kwLoop] at hr
        simp only [hscore, if_neg hscore, hm] at hr
        simp at hr
      | some r0 =>
        rw [kwLoop] at hr
        simp only [hscore, if_neg hscore, hm] at hr
        by_cases hd : deptRejects dep r0
        · simp only [hd, if_true] at hr
          obtain ⟨r1, sc, h1, h2, h3, h4, ⟨p, hp, hps⟩, h6⟩ := ih count r hr
          exact ⟨r1, sc, h1, h2, h3, h4, ⟨p, List.mem_cons_of_mem _ hp, hps⟩, h6⟩
        · simp only [hd, Bool.false_eq_true, if_false] at hr
          by_cases hs : srcRejects src r0
          · simp only [hs, if_true] at hr
            obtain ⟨r1, sc, h1, h2, h3, h4, ⟨p, hp, hps⟩, h6⟩ := ih count r hr
            exact ⟨r1, sc, h1, h2, h3, h4, ⟨p, List.mem_cons_of_mem _ hp, hps⟩, h6⟩
          · simp only [hs, Bool.false_eq_true, if_false] at hr
            have hr0mem : r0 ∈ records := List.getElem?_mem hm
            have hpos : 0 < score := lt_of_not_le hscore
            by_cases hfull : topK ≤ count + 1
            · simp only [hfull, if_true, List.mem_singleton] at hr
              exact ⟨r0, score, hr0mem, by simpa using hd, by simpa using hs, hpos,
                ⟨(idx, score), List.mem_cons_self _ _, rfl⟩, hr⟩
            · simp only [hfull, if_false] at hr
              rcases List.mem_cons.mp hr with rfl | hr'
              · exact ⟨r0, score, hr0mem, by simpa using hd, by simpa using hs, hpos,
                  ⟨(idx, score), List.mem_cons_self _ _, rfl⟩, rfl⟩
              · obtain ⟨r1, sc, h1, h2, h3, h4, ⟨p, hp, hps⟩, h6⟩ := ih (count + 1) r hr'
                exact ⟨r1, sc, h1, h2, h3, h4, ⟨p, List.mem_cons_of_mem _ hp, hps⟩, h6⟩

/-- Claim C9: with a non-empty department (resp. source) filter, a
record that lacks that field is treated as the empty string by the
filter and rejected — both for the vector store and the keyword
searcher, whose results therefore always carry the filtered field; the
searches are total functions (no exception), and a candidate id of -1
returned by the index is skipped rather than used to index metadata. -/
theorem C9_missing_filter_fields (index : List (List ℚ)) (metadata : List SRec)
    (q : List ℚ) (tokens : List String) (raw : List ℚ) (topK : Nat)
    (d s0 : String) (hd : d ≠ "") (hs0 : s0 ≠ "") :
    (∀ r : SRec, r.department = none → deptRejects (some d) r = true) ∧
    (∀ r : SRec, r.source = none → srcRejects (some s0) r = true) ∧
    (∀ src', ∀ r ∈ vsSearch index metadata q topK (some d) src',
      r.department ≠ none) ∧
    (∀ dep', ∀ r ∈ vsSearch index metadata q topK dep' (some s0),
      r.source ≠ none) ∧
    (∀ src', ∀ r ∈ kwSearch metadata tokens raw topK (some d) src',
      r.department ≠ none) ∧
    (∀ dep', ∀ r ∈ kwSearch metadata tokens raw topK dep' (some s0),
      r.source ≠ none) ∧
    (∀ (dep' src' : Option String) (count : Nat) (score : ℚ)
      (rest : List (ℚ × Int)),
      searchLoop metadata dep' src' topK count ((score, -1) :: rest) =
        searchLoop metadata dep' src' topK count rest) := by
  refine ⟨deptRejects_of_missing d hd, srcRejects_of_missing s0 hs0, ?_, ?_, ?_, ?_,
    fun dep' src' count score rest => searchLoop_skip_neg1 metadata dep' src' topK count score rest⟩
  · intro src' r hr
    obtain ⟨r0, sc, _, hdf, _, _, rfl⟩ :=
      searchLoop_shape metadata (some d) src' topK _ 0 r hr
    intro hnone
    have : r0.department = none := hnone
    rw [deptRejects_of_missing d hd r0 this] at hdf
    exact Bool.true_eq_false ▸ hdf
  · intro dep' r hr
    obtain ⟨r0, sc, _, _, hsf, _, rfl⟩ :=
      searchLoop_shape metadata dep' (some s0) topK _ 0 r hr
    intro hnone
    have : r0.source = none := hnone
    rw [srcRejects_of_missing s0 hs0 r0 this] at hsf
    exact Bool.true_eq_false ▸ hsf
  · intro src' r hr
    rw [kwSearch] at hr
    by_cases htok : tokens.isEmpty
    · simp [htok] at hr
    · simp only [htok, Bool.false_eq_true, if_false] at hr
      obtain ⟨r0, sc, _, hdf, _, _, _, rfl⟩ :=
        kwLoop_shape metadata (some d) src' topK _ 0 r hr
      intro hnone
      have : r0.department = none := hnone
      rw [deptRejects_of_missing d hd r0 this] at hdf
      exact Bool.true_eq_false ▸ hdf
  · intro dep' r hr
    rw [kwSearch] at hr
    by_cases htok : tokens.isEmpty
    · simp [htok] at hr
    · simp only [htok, Bool.false_eq_true, if_false] at hr
      obtain ⟨r0, sc, _, _, hsf, _, _, rfl⟩ :=
        kwLoop_shape metadata dep' (some s0) topK _ 0 r hr
      intro hnone
      have : r0.source = none := hnone
      rw [srcRejects_of_missing s0 hs0 r0 this] at hsf
      exact Bool.true_eq_false ▸ hsf

/-- Witness for C9 at concrete inputs. -/
theorem C9_missing_filter_fields_witness :
    (∀ r : SRec, r.department = none → deptRejects (some "Computer Science") r = true) ∧
    (∀ r : SRec, r.source = none → srcRejects (some "CAB") r = true) ∧
    (∀ src', ∀ r ∈ vsSearch [[1]] [recNoFields] [1] 5 (some "Computer Science") src',
      r.department ≠ none) ∧
    (∀ dep', ∀ r ∈ vsSearch [[1]] [recNoFields] [1] 5 dep' (some "CAB"),
      r.source ≠ none) ∧
    (∀ src', ∀ r ∈ kwSearch [recNoFields] ["software"] [1] 5 (some "Computer Science") src',
      r.department ≠ none) ∧
    (∀ dep', ∀ r ∈ kwSearch [recNoFields] ["software"] [1] 5 dep' (some "CAB"),
      r.source ≠ none) ∧
    (∀ (dep' src' : Option String) (count : Nat) (score : ℚ)
      (rest : List (ℚ × Int)),
      searchLoop [recNoFields] dep' src' 5 count ((score, -1) :: rest) =
        searchLoop [recNoFields] dep' src' 5 count rest) :=
  C9_missing_filter_fields [[1]] [recNoFields] [1] ["software"] [1] 5
    "Computer Science" "CAB" (by decide) (by decide)

/-! ## C6: all three scores lie in [0, 1] -/

theorem clip01_bounds (x : ℚ) : 0 ≤ clip01 x ∧ clip01 x ≤ 1 := by
  constructor
  · exact le_max_left 0 _
  · rw [clip01]
    rcases le_total x 1 with h | h
    · rw [min_eq_left h]
      rcases le_total 0 x with h0 | h0
      · rwa [max_eq_right h0]
      · rw [max_eq_left h0]
        linarith
    · rw [min_eq_right h]
      rw [max_eq_right zero_le_one]

theorem le_listMax (l : List ℚ) : ∀ x ∈ l, x ≤ listMax l := by
  induction l with
  | nil => intro x hx; simp at hx
  | cons a as ih =>
    intro x hx
    cases as with
    | nil =>
      simp at hx
      simp [listMax, hx]
    | cons b bs =>
      rcases List.mem_cons.mp hx with rfl | hx'
      · exact le_max_left _ _
      · exact le_trans (ih x hx') (le_max_right _ _)

theorem kwNormed_bound (raw : List ℚ) :
    ∀ x ∈ kwNormed raw, 0 < x → x ≤ 1 := by
  intro x hx hpos
  rw [kwNormed] at hx
  obtain ⟨y, hy, rfl⟩ := List.mem_map.mp hx
  by_cases hmax : 0 < listMax raw
  · simp only [if_pos hmax]
    simp only [if_pos hmax] at hpos
    exact (div_le_one hmax).mpr (le_listMax raw y hy)
  · simp only [if_neg hmax] at hpos ⊢
    rw [div_one] at hpos ⊢
    have := le_listMax raw y hy
    have hle : listMax raw ≤ 0 := le_of_not_lt hmax
    linarith

theorem getQ_setdefaultQ_bound (o : Option ℚ) (v : ℚ)
    (h1 : 0 ≤ getQ o 0) (h2 : getQ o 0 ≤ 1) (h3 : 0 ≤ v) (h4 : v ≤ 1) :
    0 ≤ getQ (setdefaultQ o v) 0 ∧ getQ (setdefaultQ o v) 0 ≤ 1 := by
  cases o with
  | none => exact ⟨h3, h4⟩
  | some x => exact ⟨h1, h2⟩

/-- The semantic leg: every vector-search result carries a clipped
similarity score in `[0, 1]` and (over plain corpus records) no other
score key. -/
theorem vsSearch_leg (index : List (List ℚ)) (metadata : List SRec)
    (q : List ℚ) (topK : Nat) (dep src : Option String)
    (hplain : ∀ r ∈ metadata, Plain r) :
    ∀ r ∈ vsSearch index metadata q topK dep src,
      (∃ x, r.similarity_score = some x ∧ 0 ≤ x ∧ x ≤ 1) ∧
      r.keyword_score = none ∧ r.rrf_score = none ∧ r.final_score = none := by
  intro r hr
  obtain ⟨r0, sc, hr0, _, _, _, rfl⟩ :=
    searchLoop_shape metadata dep src topK _ 0 r hr
  obtain ⟨h1, h2, h3, h4⟩ := hplain r0 hr0
  exact ⟨⟨clip01 sc, rfl, (clip01_bounds sc).1, (clip01_bounds sc).2⟩,
    h2, h3, h4⟩

/-- The keyword leg: every keyword-search result carries a normalised
keyword score in `(0, 1]` and (over plain corpus records) no other
score key. -/
theorem kwSearch_leg (records : List SRec) (tokens : List String) (raw : List ℚ)
    (topK : Nat) (dep src : Option String)
    (hplain : ∀ r ∈ records, Plain r) :
    ∀ r ∈ kwSearch records tokens raw topK dep src,
      (∃ x, r.keyword_score = some x ∧ 0 ≤ x ∧ x ≤ 1) ∧
      r.similarity_score = none ∧ r.rrf_score = none ∧ r.final_score = none := by
  intro r hr
  rw [kwSearch] at hr
  by_cases htok : tokens.isEmpty
  · simp [htok] at hr
  · simp only [htok, Bool.false_eq_true, if_false] at hr
    obtain ⟨r0, sc, hr0, _, _, hpos, ⟨p, hp, hps⟩, rfl⟩ :=
      kwLoop_shape records dep src topK _ 0 r hr
    obtain ⟨h1, h2, h3, h4⟩ := hplain r0 hr0
    have hmem : p.2 ∈ kwNormed raw := by
      have := List.mem_map_of_mem Prod.snd ((mem_sortDescBy _ _ _).mp hp)
      rwa [List.enum_eq_enumFrom, List.enumFrom_map_snd] at this
    have hb := kwNormed_bound raw p.2 hmem (hps ▸ hpos)
    exact ⟨⟨sc, rfl, le_of_lt hpos, hps ▸ hb⟩, h1, h3, h4⟩

theorem wsCombined_bndsk (sem kw : List SRec)
    (hsem : ∀ r ∈ sem, BndSK r) (hkw : ∀ r ∈ kw, BndSK r) :
    ∀ p ∈ wsCombined sem kw, BndSK p.2 := by
  have hinner : ∀ p ∈ sem.foldl wsSemStep [], BndSK p.2 := by
    refine vals_foldl wsSemStep (fun r => r.course_code) wsSemV wsSemF wsSemStep_eq
      sem [] BndSK (by simp) ?_ ?_
    · intro b hb
      obtain ⟨b1, b2, b3, b4⟩ := hsem b hb
      refine ⟨b1, b2, ?_, ?_⟩ <;>
        simp only [wsSemF, wsSemV, getQ_setdefaultQ] <;> assumption
    · intro b hb w hw
      obtain ⟨b1, b2, b3, b4⟩ := hsem b hb
      obtain ⟨w1, w2, w3, w4⟩ := hw
      exact ⟨b1, b2, w3, w4⟩
  refine vals_foldl wsKwStep (fun r => r.course_code) wsKwV wsKwF wsKwStep_eq
    kw _ BndSK hinner ?_ ?_
  · intro b hb
    obtain ⟨b1, b2, b3, b4⟩ := hkw b hb
    refine ⟨?_, ?_, b3, b4⟩ <;>
      simp only [wsKwF, wsKwV, getQ_setdefaultQ] <;> assumption
  · intro b hb w hw
    obtain ⟨b1, b2, b3, b4⟩ := hkw b hb
    obtain ⟨w1, w2, w3, w4⟩ := hw
    exact ⟨w1, w2, b3, b4⟩

theorem rrfCombined_bndsk (sem kw : List SRec) (k : ℚ)
    (hsem : ∀ r ∈ sem, BndSK r) (hkw : ∀ r ∈ kw, BndSK r) :
    ∀ p ∈ rrfCombined sem kw k, BndSK p.2 := by
  have hinner : ∀ p ∈ (enum1 sem).foldl (rrfSemStep k) [], BndSK p.2 := by
    refine vals_foldl (rrfSemStep k) (fun b => b.2.course_code) rrfSemV (rrfSemF k)
      (rrfSemStep_eq k) (enum1 sem) [] BndSK (by simp) ?_ ?_
    · intro b hb
      obtain ⟨b1, b2, b3, b4⟩ := hsem b.2 (snd_mem_of_mem_enum1 sem b hb)
      refine ⟨b1, b2, ?_, ?_⟩ <;>
        simp only [rrfSemF, rrfSemV, getQ_setdefaultQ] <;> assumption
    · intro b hb w hw
      obtain ⟨w1, w2, w3, w4⟩ := hw
      exact ⟨w1, w2, w3, w4⟩
  refine vals_foldl (rrfKwStep k) (fun b => b.2.course_code) rrfKwV (rrfKwF k)
    (rrfKwStep_eq k) (enum1 kw) _ BndSK hinner ?_ ?_
  · intro b hb
    obtain ⟨b1, b2, b3, b4⟩ := hkw b.2 (snd_mem_of_mem_enum1 kw b hb)
    have hsd := getQ_setdefaultQ_bound
      ((rrfKwV b).keyword_score) (getQ b.2.keyword_score 0)
      (by simp [rrfKwV]; exact b3) (by simp [rrfKwV]; exact b4) b3 b4
    refine ⟨?_, ?_, hsd.1, hsd.2⟩ <;>
      simp only [rrfKwF, rrfKwV, getQ_setdefaultQ] <;> assumption
  · intro b hb w hw
    obtain ⟨b1, b2, b3, b4⟩ := hkw b.2 (snd_mem_of_mem_enum1 kw b hb)
    obtain ⟨w1, w2, w3, w4⟩ := hw
    have hsd := getQ_setdefaultQ_bound w.keyword_score (getQ b.2.keyword_score 0)
      w3 w4 b3 b4
    exact ⟨w1, w2, hsd.1, hsd.2⟩

theorem weighted_sum_bounds (sem kw : List SRec)
    (hsem : ∀ r ∈ sem, BndSK r) (hkw : ∀ r ∈ kw, BndSK r) :
    ∀ r ∈ weighted_sum sem kw (7/10) (3/10),
      BndSK r ∧ 0 ≤ getQ r.final_score 0 ∧ getQ r.final_score 0 ≤ 1 := by
  intro r hr
  rw [weighted_sum, mem_sortDescBy, wsScored] at hr
  obtain ⟨p, hp, rfl⟩ := List.mem_map.mp hr
  obtain ⟨b1, b2, b3, b4⟩ := wsCombined_bndsk sem kw hsem hkw p hp
  refine ⟨⟨b1, b2, b3, b4⟩, ?_, ?_⟩
  · show (0 : ℚ) ≤ 7/10 * getQ p.2.similarity_score 0 + 3/10 * getQ p.2.keyword_score 0
    have h1 := b1
    have h3 := b3
    linarith
  · show 7/10 * getQ p.2.similarity_score 0 + 3/10 * getQ p.2.keyword_score 0 ≤ 1
    linarith

theorem rrf_bounds (sem kw : List SRec)
    (hsem : ∀ r ∈ sem, BndSK r) (hkw : ∀ r ∈ kw, BndSK r)
    (hsemn : ∀ r ∈ sem, r.rrf_score = none) (hkwn : ∀ r ∈ kw, r.rrf_score = none) :
    ∀ r ∈ reciprocal_rank_fusion sem kw 60,
      BndSK r ∧ ∃ fv, r.final_score = some fv ∧ 0 ≤ fv ∧ fv ≤ 1 := by
  intro r hr
  rw [reciprocal_rank_fusion] at hr
  rcases hsort : sortDescBy rrfKey ((rrfCombined sem kw 60).map Prod.snd)
    with _ | ⟨r0, rest⟩
  · rw [hsort] at hr
    simp [rrfFinalize] at hr
  · rw [hsort] at hr
    simp only [rrfFinalize, List.mem_map, List.mem_cons] at hr
    obtain ⟨u, hu, rfl⟩ := hr
    have huvals : u ∈ (rrfCombined sem kw 60).map Prod.snd := by
      rw [← mem_sortDescBy rrfKey, hsort]
      simpa using hu
    obtain ⟨p, hp, rfl⟩ := List.mem_map.mp huvals
    obtain ⟨b1, b2, b3, b4⟩ := rrfCombined_bndsk sem kw 60 hsem hkw p hp
    obtain ⟨xu, hxu, hxupos⟩ :=
      rrfCombined_rrf_pos sem kw 60 (by norm_num) hsemn hkwn p hp
    have hr0vals : r0 ∈ (rrfCombined sem kw 60).map Prod.snd := by
      rw [← mem_sortDescBy rrfKey, hsort]
      exact List.mem_cons_self _ _
    obtain ⟨p0, hp0, hp0e⟩ := List.mem_map.mp hr0vals
    obtain ⟨x0, hx0, hx0pos⟩ :=
      rrfCombined_rrf_pos sem kw 60 (by norm_num) hsemn hkwn p0 hp0
    rw [hp0e] at hx0
    have hle : rrfKey p.2 ≤ rrfKey r0 := by
      have hpair := sortDescBy_pairwise rrfKey ((rrfCombined sem kw 60).map Prod.snd)
      rw [hsort] at hpair
      rcases hu with rfl | hu'
      · exact le_refl _
      · exact (List.pairwise_cons.mp hpair).1 _ hu'
    have hmax : getQ r0.rrf_score 1 = x0 := by simp [getQ, hx0]
    refine ⟨⟨b1, b2, b3, b4⟩, _, rfl, ?_, ?_⟩
    · rw [hmax, if_neg (ne_of_gt hx0pos)]
      apply div_nonneg _ (le_of_lt hx0pos)
      rw [getQ, hxu]
      exact le_of_lt hxupos
    · rw [hmax, if_neg (ne_of_gt hx0pos)]
      apply (div_le_one hx0pos).mpr
      calc getQ p.2.rrf_score 0 = rrfKey p.2 := rfl
        _ ≤ rrfKey r0 := hle
        _ = x0 := by simp [rrfKey, getQ, hx0]

/-- Claim C6: every result of a vector-store search carries a
similarity score clipped to `[0, 1]`; and for hybrid search over a
plain corpus, under both fusion strategies with the default weights
α = 7/10 and β = 3/10, every returned result carries all three scores
present and within `[0, 1]`. -/
theorem C6_score_bounds (index : List (List ℚ)) (metadata : List SRec)
    (q : List ℚ) (tokens : List String) (raw : List ℚ)
    (topK : Nat) (dep src : Option String) (fusion : Fusion)
    (semPool kwPool : Nat)
    (hplain : ∀ r ∈ metadata, Plain r) :
    (∀ r ∈ vsSearch index metadata q semPool dep src,
      ∃ x, r.similarity_score = some x ∧ 0 ≤ x ∧ x ≤ 1) ∧
    (∀ r ∈ hybrid_search index metadata q tokens raw topK dep src fusion
        (7/10) (3/10) semPool kwPool,
      ∃ sv kv fv, r.similarity_score = some sv ∧ 0 ≤ sv ∧ sv ≤ 1 ∧
        r.keyword_score = some kv ∧ 0 ≤ kv ∧ kv ≤ 1 ∧
        r.final_score = some fv ∧ 0 ≤ fv ∧ fv ≤ 1) := by
  have hsemleg := vsSearch_leg index metadata q semPool dep src hplain
  have hkwleg := kwSearch_leg metadata tokens raw kwPool dep src hplain
  have hsemB : ∀ r ∈ vsSearch index metadata q semPool dep src, BndSK r := by
    intro r hr
    obtain ⟨⟨x, hx, hx0, hx1⟩, h2, _, _⟩ := hsemleg r hr
    exact ⟨by rw [getQ, hx]; exact hx0, by rw [getQ, hx]; exact hx1,
      by rw [getQ, h2]; exact le_refl 0, by rw [getQ, h2]; norm_num⟩
  have hkwB : ∀ r ∈ kwSearch metadata tokens raw kwPool dep src, BndSK r := by
    intro r hr
    obtain ⟨⟨x, hx, hx0, hx1⟩, h2, _, _⟩ := hkwleg r hr
    exact ⟨by rw [getQ, h2]; exact le_refl 0, by rw [getQ, h2]; norm_num,
      by rw [getQ, hx]; exact hx0, by rw [getQ, hx]; exact hx1⟩
  constructor
  · intro r hr
    exact (hsemleg r hr).1
  · intro r hr
    rw [hybrid_search.eq_def] at hr
    have hr' := List.mem_of_mem_take hr
    obtain ⟨w, hw, rfl⟩ := List.mem_map.mp hr'
    have hbnd : BndSK w ∧ 0 ≤ getQ w.final_score 0 ∧ getQ w.final_score 0 ≤ 1 := by
      cases fusion with
      | weighted =>
        exact weighted_sum_bounds _ _ hsemB hkwB w hw
      | rrf =>
        obtain ⟨hB, fv, hfv, h0, h1⟩ := rrf_bounds _ _ hsemB hkwB
          (fun r hr => (hsemleg r hr).2.2.1) (fun r hr => (hkwleg r hr).2.2.1) w hw
        exact ⟨hB, by rw [getQ, hfv]; exact h0, by rw [getQ, hfv]; exact h1⟩
    obtain ⟨⟨s1, s2, s3, s4⟩, f1, f2⟩ := hbnd
    refine ⟨getQ w.similarity_score 0, getQ w.keyword_score 0, getQ w.final_score 0,
      ?_, s1, s2, ?_, s3, s4, ?_, f1, f2⟩ <;>
      simp [ensureDefaults, setdefaultQ_eq_some]

/-- Witness for C6 at a concrete input (both fusion strategies hold;
`weighted` instantiated here). -/
theorem C6_score_bounds_witness :
    (∀ r ∈ vsSearch [[1]] [recA] [1] 50 none none,
      ∃ x, r.similarity_score = some x ∧ 0 ≤ x ∧ x ≤ 1) ∧
    (∀ r ∈ hybrid_search [[1]] [recA] [1] ["intro"] [1] 5 none none .weighted
        (7/10) (3/10) 50 50,
      ∃ sv kv fv, r.similarity_score = some sv ∧ 0 ≤ sv ∧ sv ≤ 1 ∧
        r.keyword_score = some kv ∧ 0 ≤ kv ∧ kv ≤ 1 ∧
        r.final_score = some fv ∧ 0 ≤ fv ∧ fv ≤ 1) :=
  C6_score_bounds [[1]] [recA] [1] ["intro"] [1] 5 none none .weighted 50 50
    (by intro r hr; simp at hr; subst hr; exact ⟨rfl, rfl, rfl, rfl⟩)

/-! ## C8: determinism and stable descending order -/

theorem clip01_mono {a b : ℚ} (h : a ≤ b) : clip01 a ≤ clip01 b := by
  unfold clip01
  exact max_le_max (le_refl 0) (min_le_min h (le_refl 1))

theorem searchLoop_sorted (metadata : List SRec) (dep src : Option String)
    (topK : Nat) :
    ∀ (pairs : List (ℚ × Int)) (count : Nat),
      pairs.Pairwise (fun a b => b.1 ≤ a.1) →
      (searchLoop metadata dep src topK count pairs).Pairwise
        (fun x y => getQ y.similarity_score 0 ≤ getQ x.similarity_score 0) := by
  intro pairs
  induction pairs with
  | nil =>
    intro count h
    simp [searchLoop]
  | cons p rest ih =>
    intro count hpair
    obtain ⟨score, idx⟩ := p
    have hp := List.pairwise_cons.mp hpair
    by_cases hidx : idx = -1
    · subst hidx
      rw [searchLoop_skip_neg1]
      exact ih count hp.2
    · cases hm : metadata[idx.toNat]? with
      | none =>
        rw [searchLoop]
        simp [hidx, hm]
      | some r0 =>
        rw [searchLoop]
        simp only [hidx, if_neg hidx, hm]
        by_cases hd : deptRejects dep r0
        · simp only [hd, if_true]
          exact ih count hp.2
        · simp only [hd, Bool.false_eq_true, if_false]
          by_cases hs : srcRejects src r0
          · simp only [hs, if_true]
            exact ih count hp.2
          · simp only [hs, Bool.false_eq_true, if_false]
            by_cases hfull : topK ≤ count + 1
            · simp [hfull]
            · simp only [hfull, if_false]
              refine List.pairwise_cons.mpr ⟨?_, ih (count + 1) hp.2⟩
              intro y hy
              obtain ⟨r1, sc, _, _, _, ⟨pp, hpp, rfl⟩, rfl⟩ :=
                searchLoop_shape metadata dep src topK rest (count + 1) y hy
              show getQ (some (clip01 pp.1)) 0 ≤ getQ (some (clip01 score)) 0
              simp only [getQ, Option.getD_some]
              exact clip01_mono (hp.1 pp hpp)

theorem vsSearch_sorted (index : List (List ℚ)) (metadata : List SRec)
    (q : List ℚ) (topK : Nat) (dep src : Option String) :
    (vsSearch index metadata q topK dep src).Pairwise
      (fun x y => getQ y.similarity_score 0 ≤ getQ x.similarity_score 0) :=
  searchLoop_sorted metadata dep src topK _ 0 (faissSearch_sorted index q _)

theorem rrf_sorted (sem kw : List SRec)
    (hsemn : ∀ r ∈ sem, r.rrf_score = none)
    (hkwn : ∀ r ∈ kw, r.rrf_score = none) :
    (reciprocal_rank_fusion sem kw 60).Pairwise
      (fun x y => finalKey y ≤ finalKey x) := by
  rw [reciprocal_rank_fusion]
  rcases hsort : sortDescBy rrfKey ((rrfCombined sem kw 60).map Prod.snd)
    with _ | ⟨r0, rest⟩
  · simp [rrfFinalize]
  · have hr0vals : r0 ∈ (rrfCombined sem kw 60).map Prod.snd := by
      rw [← mem_sortDescBy rrfKey, hsort]
      exact List.mem_cons_self _ _
    obtain ⟨p0, hp0, hp0e⟩ := List.mem_map.mp hr0vals
    obtain ⟨x0, hx0, hx0pos⟩ :=
      rrfCombined_rrf_pos sem kw 60 (by norm_num) hsemn hkwn p0 hp0
    rw [hp0e] at hx0
    have hmax : r0.rrf_score.getD 1 = x0 := by simp [hx0]
    simp only [rrfFinalize]
    rw [List.pairwise_map]
    have hpair : (r0 :: rest).Pairwise (fun a b => rrfKey b ≤ rrfKey a) := by
      rw [← hsort]
      exact sortDescBy_pairwise rrfKey _
    refine hpair.imp ?_
    intro a b hab
    simp only [rrfKey, getQ] at hab
    simp only [finalKey, getQ, Option.getD_some]
    rw [hmax, if_neg (ne_of_gt hx0pos), if_neg (ne_of_gt hx0pos)]
    exact (div_le_div_right hx0pos).mpr hab

theorem finalKey_ensureDefaults (r : SRec) :
    finalKey (ensureDefaults r) = finalKey r := by
  simp [finalKey, ensureDefaults, getQ_setdefaultQ]

/-- Claim C8: search is deterministic — two calls with identical
arguments against the same snapshot are equal — and the merged output
order is the stable descending sort by `final_score`: the weighted-sum
output is exactly the stable descending sort of the insertion-ordered
combined list (a permutation of it, sorted by descending `final_score`,
with equal scores kept in insertion order), and both hybrid modes and
vector-only search return lists sorted by descending final score. -/
theorem C8_deterministic_stable_sort (index : List (List ℚ)) (metadata : List SRec)
    (q : List ℚ) (tokens : List String) (raw : List ℚ) (topK : Nat)
    (dep src : Option String) (fusion : Fusion) (alpha beta : ℚ)
    (semPool kwPool : Nat) (hplain : ∀ r ∈ metadata, Plain r) :
    (hybrid_search index metadata q tokens raw topK dep src fusion alpha beta
        semPool kwPool =
      hybrid_search index metadata q tokens raw topK dep src fusion alpha beta
        semPool kwPool) ∧
    (vector_search index metadata q topK dep src =
      vector_search index metadata q topK dep src) ∧
    (∀ sem kw : List SRec,
      weighted_sum sem kw alpha beta = sortDescBy finalKey (wsScored sem kw alpha beta) ∧
      List.Perm (weighted_sum sem kw alpha beta) (wsScored sem kw alpha beta) ∧
      (weighted_sum sem kw alpha beta).Pairwise (fun x y => finalKey y ≤ finalKey x) ∧
      (∀ qv : ℚ, (weighted_sum sem kw alpha beta).filter (fun r => finalKey r == qv) =
        (wsScored sem kw alpha beta).filter (fun r => finalKey r == qv))) ∧
    (hybrid_search index metadata q tokens raw topK dep src fusion alpha beta
        semPool kwPool).Pairwise (fun x y => finalKey y ≤ finalKey x) ∧
    (vector_search index metadata q topK dep src).Pairwise
      (fun x y => finalKey y ≤ finalKey x) := by
  refine ⟨rfl, rfl, ?_, ?_, ?_⟩
  · intro sem kw
    exact ⟨rfl, sortDescBy_perm finalKey _, sortDescBy_pairwise finalKey _,
      fun qv => filter_sortDescBy finalKey qv _⟩
  · rw [hybrid_search.eq_def]
    apply List.Pairwise.sublist (List.take_sublist _ _)
    rw [List.pairwise_map]
    have hmerged : (match fusion with
        | .rrf => reciprocal_rank_fusion
            (vsSearch index metadata q semPool dep src)
            (kwSearch metadata tokens raw kwPool dep src) 60
        | .weighted => weighted_sum
            (vsSearch index metadata q semPool dep src)
            (kwSearch metadata tokens raw kwPool dep src) alpha beta).Pairwise
        (fun x y => finalKey y ≤ finalKey x) := by
      cases fusion with
      | weighted => exact sortDescBy_pairwise finalKey _
      | rrf =>
        exact rrf_sorted _ _
          (fun r hr => (vsSearch_leg index metadata q semPool dep src hplain r hr).2.2.1)
          (fun r hr => (kwSearch_leg metadata tokens raw kwPool dep src hplain r hr).2.2.1)
    refine hmerged.imp ?_
    intro a b hab
    rw [finalKey_ensureDefaults, finalKey_ensureDefaults]
    exact hab
  · have hs := vsSearch_sorted index metadata q topK dep src
    rw [vector_search, List.pairwise_map]
    refine hs.imp ?_
    intro a b hab
    show finalKey _ ≤ finalKey _
    simp only [finalKey, getQ, Option.getD_some]
    simpa [getQ_setdefaultQ] using hab

/-- Witness for C8 at a concrete input. -/
theorem C8_deterministic_stable_sort_witness :
    (hybrid_search [[1]] [recA] [1] ["intro"] [1] 5 none none .weighted (7/10)
        (3/10) 50 50 =
      hybrid_search [[1]] [recA] [1] ["intro"] [1] 5 none none .weighted (7/10)
        (3/10) 50 50) ∧
    (vector_search [[1]] [recA] [1] 5 none none =
      vector_search [[1]] [recA] [1] 5 none none) ∧
    (∀ sem kw : List SRec,
      weighted_sum sem kw (7/10) (3/10) =
        sortDescBy finalKey (wsScored sem kw (7/10) (3/10)) ∧
      List.Perm (weighted_sum sem kw (7/10) (3/10)) (wsScored sem kw (7/10) (3/10)) ∧
      (weighted_sum sem kw (7/10) (3/10)).Pairwise
        (fun x y => finalKey y ≤ finalKey x) ∧
      (∀ qv : ℚ, (weighted_sum sem kw (7/10) (3/10)).filter
          (fun r => finalKey r == qv) =
        (wsScored sem kw (7/10) (3/10)).filter (fun r => finalKey r == qv))) ∧
    (hybrid_search [[1]] [recA] [1] ["intro"] [1] 5 none none .weighted (7/10)
        (3/10) 50 50).Pairwise (fun x y => finalKey y ≤ finalKey x) ∧
    (vector_search [[1]] [recA] [1] 5 none none).Pairwise
      (fun x y => finalKey y ≤ finalKey x) :=
  C8_deterministic_stable_sort [[1]] [recA] [1] ["intro"] [1] 5 none none
    .weighted (7/10) (3/10) 50 50
    (by intro r hr; simp at hr; subst hr; exact ⟨rfl, rfl, rfl, rfl⟩)

end CRag
